import Mathlib

set_option maxHeartbeats 1000000

namespace NfsServer

/-!
Shallow embedding of the byte-range lock table (src/locking/lock_table.cpp),
the NFSv4 state manager (src/nfs4/nfs4_state.cpp), the COMPOUND dispatcher and
filehandle operations (src/nfs4/nfs4_server.cpp), and universal-address parsing
(src/nfs4/nfs4_callback.cpp).

Machine integers (uint64, uint32) are modelled as Nat with explicit reduction
modulo 2^64 / 2^32 at exactly the points where the C++ arithmetic can wrap.
C++ out-parameters that are only written on some paths are modelled as Option
fields of a result structure; std::vector mutation through a pointer obtained
from a linear search is modelled by rewriting the first matching element.
-/

def U64MOD : Nat := 2 ^ 64
def U64MAX : Nat := 2 ^ 64 - 1
def U32MOD : Nat := 2 ^ 32
def U32MAX : Nat := 2 ^ 32 - 1

/-- NFS3_FHSIZE from src/vfs/vfs.h. -/
def NFS3_FHSIZE : Nat := 64

/-- A filehandle is an opaque byte string (data[0..len) of the C++ struct). -/
abbrev FileHandle := List Nat

/-- Nfs4Stat codes are uint32 values (src/nfs4/nfs4_types.h). -/
abbrev Nfs4Stat := Nat

def NFS4_OK : Nfs4Stat := 0
def NFS4ERR_ACCESS : Nfs4Stat := 13
def NFS4ERR_EXIST : Nfs4Stat := 17
def NFS4ERR_INVAL : Nfs4Stat := 22
def NFS4ERR_NOTSUPP : Nfs4Stat := 10004
def NFS4ERR_SERVERFAULT : Nfs4Stat := 10006
def NFS4ERR_DELAY : Nfs4Stat := 10008
def NFS4ERR_DENIED : Nfs4Stat := 10010
def NFS4ERR_STALE_CLIENTID : Nfs4Stat := 10012
def NFS4ERR_NOFILEHANDLE : Nfs4Stat := 10020
def NFS4ERR_MINOR_VERS_MISMATCH : Nfs4Stat := 10021
def NFS4ERR_BAD_STATEID : Nfs4Stat := 10025
def NFS4ERR_BAD_SEQID : Nfs4Stat := 10026
def NFS4ERR_NO_GRACE : Nfs4Stat := 10033
def NFS4ERR_LOCKS_HELD : Nfs4Stat := 10037
def NFS4ERR_OP_ILLEGAL : Nfs4Stat := 10044

def OP_ILLEGAL : Nat := 10044

def READ_LT : Nat := 1
def WRITE_LT : Nat := 2

def OPEN4_SHARE_ACCESS_WRITE : Nat := 2

def OPEN_DELEGATE_NONE : Nat := 0
def OPEN_DELEGATE_READ : Nat := 1
def OPEN_DELEGATE_WRITE : Nat := 2

def CLAIM_NULL : Nat := 0
def CLAIM_PREVIOUS : Nat := 1
def CLAIM_DELEGATE_CUR : Nat := 2
def CLAIM_DELEGATE_PREV : Nat := 3

def NFS4_LEASE_TIME : Nat := 90

/-- Rewrite the first element satisfying `p` (a mutation through the pointer
returned by a linear search in the C++). -/
def modifyFirst (p : α → Bool) (f : α → α) : List α → List α
  | [] => []
  | a :: as => if p a then f a :: as else a :: modifyFirst p f as

/-- Erase the first element satisfying `p` (`vector::erase` of a found iterator). -/
def eraseFirst (p : α → Bool) : List α → List α
  | [] => []
  | a :: as => if p a then as else a :: eraseFirst p as

/-- uint64 end of a range: `(l == UINT64_MAX) ? UINT64_MAX : o + l` with the
wrapping uint64 addition made explicit. -/
def u64end (o l : Nat) : Nat := if l = U64MAX then U64MAX else (o + l) % U64MOD

/-- `ByteRangeLockTable::ranges_overlap` (also the identical static
`ranges_overlap` in nfs4_state.cpp). -/
def ranges_overlap (o1 l1 o2 l2 : Nat) : Bool :=
  decide (o1 < u64end o2 l2) && decide (o2 < u64end o1 l1)

/-! ## Byte-range lock table (src/locking/lock_table.cpp) -/

abbrev LockOwnerKey := String

structure LockRange where
  offset : Nat
  length : Nat
  exclusive : Bool
deriving DecidableEq, Repr

structure LockConflict where
  offset : Nat
  length : Nat
  exclusive : Bool
  owner : LockOwnerKey
deriving DecidableEq, Repr

structure LockEntry where
  owner : LockOwnerKey
  fh : FileHandle
  ranges : List LockRange
deriving DecidableEq, Repr

abbrev ByteRangeLockTable := List LockEntry

/-- `ByteRangeLockTable::find_entry`: first entry with this fh and owner. -/
def find_entry (tbl : ByteRangeLockTable) (fh : FileHandle) (owner : LockOwnerKey) :
    Option LockEntry :=
  tbl.find? (fun e => decide (e.fh = fh) && decide (e.owner = owner))

/-- The per-range body of `ByteRangeLockTable::remove_range`: what survives of
range `r` after removing the window starting at `offset` of `length` bytes
(`rem_end` is the precomputed window end). -/
def rangeRemnants (offset length rem_end : Nat) (r : LockRange) : List LockRange :=
  if ranges_overlap offset length r.offset r.length then
    (if r.offset < offset then [{ r with length := offset - r.offset }] else []) ++
    (if u64end r.offset r.length > rem_end ∧ rem_end ≠ U64MAX then
        [{ r with offset := rem_end,
                  length := if r.length = U64MAX then U64MAX
                            else u64end r.offset r.length - rem_end }]
     else [])
  else [r]

/-- `ByteRangeLockTable::remove_range`. -/
def remove_range (entry : LockEntry) (offset length : Nat) : LockEntry :=
  { entry with ranges :=
      (entry.ranges.map (rangeRemnants offset length (u64end offset length))).flatten }

/-- `ByteRangeLockTable::cleanup_empty`. -/
def cleanup_empty (tbl : ByteRangeLockTable) : ByteRangeLockTable :=
  tbl.filter (fun e => !e.ranges.isEmpty)

/-- Inner loop of `ByteRangeLockTable::test`: the first conflicting range. -/
def testRanges (exclusive : Bool) (offset length : Nat) : List LockRange → Option LockRange
  | [] => none
  | r :: rs =>
    if !exclusive && !r.exclusive then testRanges exclusive offset length rs
    else if ranges_overlap offset length r.offset r.length then some r
    else testRanges exclusive offset length rs

/-- `ByteRangeLockTable::test`: the first conflict, if any (the C++ returns a
bool plus an out-parameter). -/
def test (tbl : ByteRangeLockTable) (fh : FileHandle) (requester : LockOwnerKey)
    (exclusive : Bool) (offset length : Nat) : Option LockConflict :=
  match tbl with
  | [] => none
  | e :: es =>
    if decide (e.fh = fh) && decide (e.owner ≠ requester) then
      match testRanges exclusive offset length e.ranges with
      | some r => some ⟨r.offset, r.length, r.exclusive, e.owner⟩
      | none => test es fh requester exclusive offset length
    else test es fh requester exclusive offset length

/-- `ByteRangeLockTable::acquire`: false plus the unchanged table on conflict,
otherwise true plus the table with the range appended. -/
def acquire (tbl : ByteRangeLockTable) (fh : FileHandle) (owner : LockOwnerKey)
    (exclusive : Bool) (offset length : Nat) : Bool × ByteRangeLockTable :=
  match test tbl fh owner exclusive offset length with
  | some _ => (false, tbl)
  | none =>
    match find_entry tbl fh owner with
    | some _ =>
      (true, modifyFirst (fun e => decide (e.fh = fh) && decide (e.owner = owner))
               (fun e => { e with ranges := e.ranges ++ [⟨offset, length, exclusive⟩] }) tbl)
    | none => (true, tbl ++ [⟨owner, fh, [⟨offset, length, exclusive⟩]⟩])

/-- `ByteRangeLockTable::release`. -/
def release (tbl : ByteRangeLockTable) (fh : FileHandle) (owner : LockOwnerKey)
    (offset length : Nat) : ByteRangeLockTable :=
  match find_entry tbl fh owner with
  | none => tbl
  | some _ =>
      cleanup_empty
        (modifyFirst (fun e => decide (e.fh = fh) && decide (e.owner = owner))
          (fun e => remove_range e offset length) tbl)

/-! ## NFSv4 state manager data model (src/nfs4/nfs4_state.h) -/

structure Nfs4StateId where
  seqid : Nat
  other : List Nat
deriving DecidableEq, Repr

structure Nfs4LockOwner where
  clientid : Nat
  owner : List Nat
deriving DecidableEq, Repr

structure Nfs4LockRange where
  offset : Nat
  length : Nat
  locktype : Nat
deriving DecidableEq, Repr

structure Nfs4LockDenied where
  offset : Nat
  length : Nat
  locktype : Nat
  owner : Nfs4LockOwner
deriving DecidableEq, Repr

structure Nfs4LockState where
  stateid : Nfs4StateId
  lock_owner : Nfs4LockOwner
  fh : FileHandle
  clientid : Nat
  open_stateid_other : List Nat
  lock_seqid : Nat
  ranges : List Nfs4LockRange
deriving DecidableEq, Repr

structure Nfs4OpenState where
  stateid : Nfs4StateId
  clientid : Nat
  fh : FileHandle
  access : Nat
  deny : Nat
  owner : List Nat
  open_seqid : Nat
  confirmed : Bool
deriving DecidableEq, Repr

structure Nfs4DelegState where
  stateid : Nfs4StateId
  clientid : Nat
  fh : FileHandle
  deleg_type : Nat
  recalled : Bool
deriving DecidableEq, Repr

structure Nfs4CallbackInfo where
  cb_program : Nat
  cb_netid : String
  r_addr : String
  cb_ident : Nat
  valid : Bool
deriving DecidableEq, Repr

structure Nfs4Client where
  clientid : Nat
  verifier : List Nat
  confirm_verifier : List Nat
  client_id : List Nat
  confirmed : Bool
  last_renewed : Nat
  cb_info : Nfs4CallbackInfo
deriving DecidableEq, Repr

/-- The mutable fields of `Nfs4StateManager` (mutex, reaper thread handle and
stop flag are concurrency plumbing with no data content). `clients_` is a
`std::map` keyed by clientid; `client_id_to_clientid_` a `std::map` keyed by
the opaque nfs_client_id4; both are modelled as association lists with unique
keys. Monotonic timestamps are modelled as Nat; operations that read the clock
take an explicit `now`. -/
structure MgrState where
  next_clientid : Nat
  next_state_counter : Nat
  clients : List (Nat × Nfs4Client)
  client_id_to_clientid : List (List Nat × Nat)
  open_states : List Nfs4OpenState
  lock_states : List Nfs4LockState
  deleg_states : List Nfs4DelegState
  in_grace_period : Bool
deriving Repr

/-- `std::map::find` on the clients map. -/
def lookupClient (clients : List (Nat × Nfs4Client)) (cid : Nat) : Option Nfs4Client :=
  (clients.find? (fun kv => decide (kv.1 = cid))).map (·.2)

/-- Lease renewal: `client.last_renewed = steady_clock::now()`. -/
def renewClient (now cid : Nat) (clients : List (Nat × Nfs4Client)) :
    List (Nat × Nfs4Client) :=
  modifyFirst (fun kv => decide (kv.1 = cid))
    (fun kv => (kv.1, { kv.2 with last_renewed := now })) clients

/-- Little-endian byte decomposition used by the memcpy in gen_stateid_other. -/
def le_bytes : Nat → Nat → List Nat
  | 0, _ => []
  | n + 1, v => (v % 256) :: le_bytes n (v / 256)

/-- `Nfs4StateManager::gen_stateid_other`: 12 zeroed bytes with the uint64
counter value copied over the first 8. -/
def gen_stateid_other (counter : Nat) : List Nat :=
  le_bytes 8 (counter % U64MOD) ++ [0, 0, 0, 0]

/-- `Nfs4StateManager::find_open_state`: first open whose stateid.other bytes
match (memcmp over the 12 bytes). -/
def find_open_state (st : MgrState) (sid : Nfs4StateId) : Option Nfs4OpenState :=
  st.open_states.find? (fun os => decide (os.stateid.other = sid.other))

/-- `Nfs4StateManager::find_lock_state`. -/
def find_lock_state (st : MgrState) (sid : Nfs4StateId) : Option Nfs4LockState :=
  st.lock_states.find? (fun ls => decide (ls.stateid.other = sid.other))

/-- `Nfs4StateManager::find_lock_state_by_owner`. -/
def find_lock_state_by_owner (st : MgrState) (owner : Nfs4LockOwner) (fh : FileHandle) :
    Option Nfs4LockState :=
  st.lock_states.find? (fun ls => decide (ls.lock_owner = owner) && decide (ls.fh = fh))

/-- Inner loop of `Nfs4StateManager::check_lock_conflict`: first range of one
lock-state that conflicts with the request. -/
def conflictRanges (locktype offset length : Nat) : List Nfs4LockRange → Option Nfs4LockRange
  | [] => none
  | r :: rs =>
    if locktype = READ_LT ∧ r.locktype = READ_LT then conflictRanges locktype offset length rs
    else if ranges_overlap offset length r.offset r.length then some r
    else conflictRanges locktype offset length rs

/-- `Nfs4StateManager::check_lock_conflict`: scan all lock-states on the same
filehandle held by a different owner. -/
def check_lock_conflict (lock_states : List Nfs4LockState) (fh : FileHandle)
    (requester : Nfs4LockOwner) (locktype offset length : Nat) : Option Nfs4LockDenied :=
  match lock_states with
  | [] => none
  | ls :: rest =>
    if decide (ls.fh = fh) && decide (ls.lock_owner ≠ requester) then
      match conflictRanges locktype offset length ls.ranges with
      | some r => some ⟨r.offset, r.length, r.locktype, ls.lock_owner⟩
      | none => check_lock_conflict rest fh requester locktype offset length
    else check_lock_conflict rest fh requester locktype offset length

/-- Per-range body of `Nfs4StateManager::remove_lock_range` (the same remnant
algorithm as the shared lock table, on `Nfs4LockRange`). -/
def nfs4RangeRemnants (offset length rem_end : Nat) (r : Nfs4LockRange) : List Nfs4LockRange :=
  if ranges_overlap offset length r.offset r.length then
    (if r.offset < offset then [{ r with length := offset - r.offset }] else []) ++
    (if u64end r.offset r.length > rem_end ∧ rem_end ≠ U64MAX then
        [{ r with offset := rem_end,
                  length := if r.length = U64MAX then U64MAX
                            else u64end r.offset r.length - rem_end }]
     else [])
  else [r]

/-- `Nfs4StateManager::remove_lock_range`. -/
def remove_lock_range (ls : Nfs4LockState) (offset length : Nat) : Nfs4LockState :=
  { ls with ranges :=
      (ls.ranges.map (nfs4RangeRemnants offset length (u64end offset length))).flatten }

/-! ## State manager operations (src/nfs4/nfs4_state.cpp) -/

/-- Result of an operation that returns a status, the updated manager state, and
an out-parameter stateid written only on the paths that set it. -/
structure StOut where
  status : Nfs4Stat
  st : MgrState
  stateid : Option Nfs4StateId
deriving Repr

/-- `Nfs4StateManager::confirm_open`. -/
def confirm_open (now : Nat) (st : MgrState) (stateid : Nfs4StateId) (seqid : Nat) : StOut :=
  match find_open_state st stateid with
  | none => ⟨NFS4ERR_BAD_STATEID, st, none⟩
  | some os =>
    if seqid ≠ (os.open_seqid + 1) % U32MOD then ⟨NFS4ERR_BAD_SEQID, st, none⟩
    else
      let os2 := { os with confirmed := true,
                           stateid := { os.stateid with seqid := (os.stateid.seqid + 1) % U32MOD },
                           open_seqid := seqid }
      ⟨NFS4_OK,
       { st with open_states := modifyFirst (fun o => decide (o.stateid.other = stateid.other))
                                  (fun _ => os2) st.open_states,
                 clients := renewClient now os.clientid st.clients },
       some os2.stateid⟩

/-- `Nfs4StateManager::open_downgrade`. -/
def open_downgrade (now : Nat) (st : MgrState) (stateid : Nfs4StateId) (seqid : Nat)
    (access deny : Nat) : StOut :=
  match find_open_state st stateid with
  | none => ⟨NFS4ERR_BAD_STATEID, st, none⟩
  | some os =>
    if seqid ≠ (os.open_seqid + 1) % U32MOD then ⟨NFS4ERR_BAD_SEQID, st, none⟩
    else if access &&& os.access ≠ access then ⟨NFS4ERR_INVAL, st, none⟩
    else
      let os2 := { os with access := access, deny := deny,
                           stateid := { os.stateid with seqid := (os.stateid.seqid + 1) % U32MOD },
                           open_seqid := seqid }
      ⟨NFS4_OK,
       { st with open_states := modifyFirst (fun o => decide (o.stateid.other = stateid.other))
                                  (fun _ => os2) st.open_states,
                 clients := renewClient now os.clientid st.clients },
       some os2.stateid⟩

/-- `Nfs4StateManager::close_file`. -/
def close_file (now : Nat) (st : MgrState) (stateid : Nfs4StateId) (seqid : Nat) : StOut :=
  match find_open_state st stateid with
  | none => ⟨NFS4ERR_BAD_STATEID, st, none⟩
  | some os =>
    if seqid ≠ (os.open_seqid + 1) % U32MOD then ⟨NFS4ERR_BAD_SEQID, st, none⟩
    else if st.lock_states.any (fun ls =>
              decide (ls.open_stateid_other = os.stateid.other) && !ls.ranges.isEmpty) then
      ⟨NFS4ERR_LOCKS_HELD, st, none⟩
    else
      ⟨NFS4_OK,
       { st with
          lock_states := st.lock_states.filter
            (fun ls => !decide (ls.open_stateid_other = os.stateid.other)),
          clients := renewClient now os.clientid st.clients,
          open_states := eraseFirst (fun o => decide (o.stateid.other = stateid.other))
                           st.open_states },
       some { os.stateid with seqid := U32MAX }⟩

/-- The delegation-conflict predicate inside `Nfs4StateManager::open_file`:
a delegation on the same fh held by another client, conflicting when it is a
write delegation or the new open requests write access. -/
def delegConflict (clientid : Nat) (fh : FileHandle) (access : Nat)
    (ds : Nfs4DelegState) : Bool :=
  decide (ds.fh = fh) && decide (ds.clientid ≠ clientid) &&
  (decide (ds.deleg_type = OPEN_DELEGATE_WRITE) ||
   decide (access &&& OPEN4_SHARE_ACCESS_WRITE ≠ 0))

/-- Out-parameters of `Nfs4StateManager::open_file`. -/
structure OpenOut where
  status : Nfs4Stat
  st : MgrState
  stateid : Option Nfs4StateId
  needs_confirm : Option Bool
  deleg_type : Nat
  deleg_stateid : Option Nfs4StateId
  recall_cb : Option Nfs4CallbackInfo
  recall_deleg_sid : Option Nfs4StateId
  recall_fh : Option FileHandle
deriving Repr

/-- `Nfs4StateManager::open_file`. -/
def open_file (now : Nat) (st : MgrState) (clientid : Nat) (owner : List Nat)
    (seqid : Nat) (fh : FileHandle) (access deny : Nat) : OpenOut :=
  match lookupClient st.clients clientid with
  | none => ⟨NFS4ERR_STALE_CLIENTID, st, none, none, OPEN_DELEGATE_NONE, none, none, none, none⟩
  | some cl =>
    if !cl.confirmed then
      ⟨NFS4ERR_STALE_CLIENTID, st, none, none, OPEN_DELEGATE_NONE, none, none, none, none⟩
    else
      match st.deleg_states.find? (delegConflict clientid fh access) with
      | some ds =>
        if ds.recalled then
          ⟨NFS4ERR_DELAY, st, none, none, OPEN_DELEGATE_NONE, none, none, none, none⟩
        else
          ⟨NFS4ERR_DELAY,
           { st with deleg_states := modifyFirst (delegConflict clientid fh access)
                       (fun d => { d with recalled := true }) st.deleg_states },
           none, none, OPEN_DELEGATE_NONE, none,
           (lookupClient st.clients ds.clientid).map (·.cb_info), some ds.stateid, some ds.fh⟩
      | none =>
        match st.open_states.find? (fun os =>
            decide (os.clientid = clientid) && decide (os.owner = owner) &&
            decide (os.fh = fh)) with
        | some os =>
          if seqid ≠ (os.open_seqid + 1) % U32MOD then
            ⟨NFS4ERR_BAD_SEQID, st, none, none, OPEN_DELEGATE_NONE, none, none, none, none⟩
          else
            let os2 := { os with
              access := os.access ||| access,
              stateid := { os.stateid with seqid := (os.stateid.seqid + 1) % U32MOD },
              open_seqid := seqid }
            ⟨NFS4_OK,
             { st with
                open_states := modifyFirst (fun o =>
                    decide (o.clientid = clientid) && decide (o.owner = owner) &&
                    decide (o.fh = fh)) (fun _ => os2) st.open_states,
                clients := renewClient now clientid st.clients },
             some os2.stateid, some (!os.confirmed), OPEN_DELEGATE_NONE, none, none, none, none⟩
        | none =>
          let newSid : Nfs4StateId := ⟨1, gen_stateid_other st.next_state_counter⟩
          let osNew : Nfs4OpenState := ⟨newSid, clientid, fh, access, deny, owner, seqid, false⟩
          let opens2 := st.open_states ++ [osNew]
          let ctr2 := st.next_state_counter + 1
          let other_client_open := opens2.any (fun oos =>
              decide (oos.fh = fh) && decide (oos.clientid ≠ clientid))
          if !other_client_open && cl.cb_info.valid then
            match st.deleg_states.find? (fun d =>
                decide (d.fh = fh) && decide (d.clientid = clientid)) with
            | some d =>
              ⟨NFS4_OK,
               { st with open_states := opens2, next_state_counter := ctr2,
                         clients := renewClient now clientid st.clients },
               some newSid, some true, d.deleg_type, some d.stateid, none, none, none⟩
            | none =>
              let dSid : Nfs4StateId := ⟨1, gen_stateid_other ctr2⟩
              let dtype := if access &&& OPEN4_SHARE_ACCESS_WRITE ≠ 0 then OPEN_DELEGATE_WRITE
                           else OPEN_DELEGATE_READ
              ⟨NFS4_OK,
               { st with open_states := opens2, next_state_counter := ctr2 + 1,
                         deleg_states := st.deleg_states ++ [⟨dSid, clientid, fh, dtype, false⟩],
                         clients := renewClient now clientid st.clients },
               some newSid, some true, dtype, some dSid, none, none, none⟩
          else
            ⟨NFS4_OK,
             { st with open_states := opens2, next_state_counter := ctr2,
                       clients := renewClient now clientid st.clients },
             some newSid, some true, OPEN_DELEGATE_NONE, none, none, none, none⟩

/-- Result of a LOCK/LOCKU state-manager call. -/
structure LockOut where
  status : Nfs4Stat
  st : MgrState
  stateid : Option Nfs4StateId
  denied : Option Nfs4LockDenied
deriving Repr

/-- `Nfs4StateManager::lock_new` (LOCK with a new lock_owner). The open seqid
is consumed (bumped) even when the lock itself fails. -/
def lock_new (now : Nat) (st : MgrState) (clientid : Nat) (open_stateid : Nfs4StateId)
    (open_seqid : Nat) (lock_owner : Nfs4LockOwner) (lock_seqid : Nat)
    (fh : FileHandle) (locktype offset length : Nat) : LockOut :=
  match find_open_state st open_stateid with
  | none => ⟨NFS4ERR_BAD_STATEID, st, none, none⟩
  | some os =>
    if open_seqid ≠ (os.open_seqid + 1) % U32MOD then ⟨NFS4ERR_BAD_SEQID, st, none, none⟩
    else
      let os2 := { os with open_seqid := open_seqid,
                           stateid := { os.stateid with seqid := (os.stateid.seqid + 1) % U32MOD } }
      let opensBumped := modifyFirst (fun o => decide (o.stateid.other = open_stateid.other))
        (fun _ => os2) st.open_states
      let st1 := { st with open_states := opensBumped }
      match check_lock_conflict st1.lock_states fh lock_owner locktype offset length with
      | some d => ⟨NFS4ERR_DENIED, st1, none, some d⟩
      | none =>
        match find_lock_state_by_owner st1 lock_owner fh with
        | none =>
          let newSid : Nfs4StateId := ⟨1, gen_stateid_other st1.next_state_counter⟩
          let nls : Nfs4LockState :=
            ⟨newSid, lock_owner, fh, clientid, os2.stateid.other, lock_seqid,
             [⟨offset, length, locktype⟩]⟩
          ⟨NFS4_OK,
           { st1 with next_state_counter := st1.next_state_counter + 1,
                      lock_states := st1.lock_states ++ [nls],
                      clients := renewClient now clientid st1.clients },
           some newSid, none⟩
        | some ls =>
          if lock_seqid ≠ (ls.lock_seqid + 1) % U32MOD ∧ lock_seqid ≠ 0 then
            ⟨NFS4ERR_BAD_SEQID, st1, none, none⟩
          else
            let ls2 := { ls with ranges := ls.ranges ++ [⟨offset, length, locktype⟩],
                                 lock_seqid := lock_seqid,
                                 stateid := { ls.stateid with
                                              seqid := (ls.stateid.seqid + 1) % U32MOD } }
            let locks2 := modifyFirst
              (fun l => decide (l.lock_owner = lock_owner) && decide (l.fh = fh))
              (fun _ => ls2) st1.lock_states
            ⟨NFS4_OK,
             { st1 with lock_states := locks2, clients := renewClient now clientid st1.clients },
             some ls2.stateid, none⟩

/-- `Nfs4StateManager::lock_existing` (LOCK with an existing lock_stateid). -/
def lock_existing (now : Nat) (st : MgrState) (lock_stateid : Nfs4StateId)
    (lock_seqid locktype offset length : Nat) : LockOut :=
  match find_lock_state st lock_stateid with
  | none => ⟨NFS4ERR_BAD_STATEID, st, none, none⟩
  | some ls =>
    if lock_seqid ≠ (ls.lock_seqid + 1) % U32MOD then ⟨NFS4ERR_BAD_SEQID, st, none, none⟩
    else
      match check_lock_conflict st.lock_states ls.fh ls.lock_owner locktype offset length with
      | some d => ⟨NFS4ERR_DENIED, st, none, some d⟩
      | none =>
        let ls2 := { ls with ranges := ls.ranges ++ [⟨offset, length, locktype⟩],
                             lock_seqid := lock_seqid,
                             stateid := { ls.stateid with
                                          seqid := (ls.stateid.seqid + 1) % U32MOD } }
        let locks2 := modifyFirst (fun l => decide (l.stateid.other = lock_stateid.other))
          (fun _ => ls2) st.lock_states
        ⟨NFS4_OK,
         { st with lock_states := locks2, clients := renewClient now ls.clientid st.clients },
         some ls2.stateid, none⟩

/-- `Nfs4StateManager::lock_unlock` (LOCKU). -/
def lock_unlock (now : Nat) (st : MgrState) (lock_stateid : Nfs4StateId)
    (seqid offset length : Nat) : StOut :=
  match find_lock_state st lock_stateid with
  | none => ⟨NFS4ERR_BAD_STATEID, st, none⟩
  | some ls =>
    if seqid ≠ (ls.lock_seqid + 1) % U32MOD then ⟨NFS4ERR_BAD_SEQID, st, none⟩
    else
      let ls2 := { remove_lock_range ls offset length with
                    lock_seqid := seqid,
                    stateid := { ls.stateid with seqid := (ls.stateid.seqid + 1) % U32MOD } }
      let locks2 := modifyFirst (fun l => decide (l.stateid.other = lock_stateid.other))
        (fun _ => ls2) st.lock_states
      ⟨NFS4_OK,
       { st with lock_states := locks2, clients := renewClient now ls.clientid st.clients },
       some ls2.stateid⟩

/-- The expiry predicate of `Nfs4StateManager::expire_clients`: a confirmed
client whose lease is stale (`now - last_renewed > lease` on a monotone
clock). -/
def clientExpired (now : Nat) (c : Nfs4Client) : Bool :=
  c.confirmed && decide (now - c.last_renewed > NFS4_LEASE_TIME)

/-- The body of the per-client erase loop in `Nfs4StateManager::expire_clients`.
The C++ reads `clients_[cid].client_id` to erase the index entry; when `cid` is
absent `operator[]` default-inserts a record with an empty client_id that the
final erase removes again, so that branch erases the empty key. -/
def expireOne (st : MgrState) (cid : Nat) : MgrState :=
  let st1 := { st with
    deleg_states := st.deleg_states.filter (fun ds => decide (ds.clientid ≠ cid)),
    lock_states := st.lock_states.filter (fun ls => decide (ls.clientid ≠ cid)),
    open_states := st.open_states.filter (fun os => decide (os.clientid ≠ cid)) }
  let key : List Nat := ((lookupClient st1.clients cid).map Nfs4Client.client_id).getD []
  { st1 with
    client_id_to_clientid := st1.client_id_to_clientid.filter (fun kv => !decide (kv.1 = key)),
    clients := st1.clients.filter (fun kv => !decide (kv.1 = cid)) }

/-- `Nfs4StateManager::expire_clients`: collect the confirmed stale clients,
then remove each ones delegations, locks, opens, index entry and record. -/
def expire_clients (now : Nat) (st : MgrState) : MgrState :=
  let expired := (st.clients.filter (fun kv => clientExpired now kv.2)).map (·.1)
  expired.foldl expireOne st

/-! ## COMPOUND dispatch (src/nfs4/nfs4_server.cpp, proc_compound) -/

/-- One buffered operation result (`struct OpResult` in proc_compound). -/
structure OpResult where
  opcode : Nat
  status : Nfs4Stat
  data : List Nat
deriving DecidableEq, Repr

/-- A handler table: the `op_handlers_` map. A handler consumes the shared
compound state and produces the new state, its status and its encoded body. -/
abbrev HandlerMap (σ : Type) := Nat → Option (σ → σ × Nfs4Stat × List Nat)

/-- The op loop of `Nfs4Server::proc_compound`: execute in order, buffer each
result, stop after the first non-OK status; an unknown opcode yields a
synthesized OP_ILLEGAL result. Returns the buffered results and the final
`last_status` (NFS4_OK when no op ran). -/
def runOps (H : HandlerMap σ) : σ → List Nat → List OpResult × Nfs4Stat
  | _, [] => ([], NFS4_OK)
  | s, op :: rest =>
    match H op with
    | none => ([⟨OP_ILLEGAL, NFS4ERR_OP_ILLEGAL, []⟩], NFS4ERR_OP_ILLEGAL)
    | some h =>
      let r := h s
      if r.2.1 = NFS4_OK then
        let tail := runOps H r.1 rest
        (⟨op, r.2.1, r.2.2⟩ :: tail.1, tail.2)
      else ([⟨op, r.2.1, r.2.2⟩], r.2.1)

/-- The encoded COMPOUND reply `{status, tag, results}`. -/
structure CompoundReply where
  status : Nfs4Stat
  tag : List Nat
  results : List OpResult
deriving Repr

/-- `Nfs4Server::proc_compound` after decoding `{tag, minorversion, ops}`. -/
def proc_compound (H : HandlerMap σ) (tag : List Nat) (minorversion : Nat) (s : σ)
    (ops : List Nat) : CompoundReply :=
  if minorversion ≠ 0 then ⟨NFS4ERR_MINOR_VERS_MISMATCH, tag, []⟩
  else
    let r := runOps H s ops
    ⟨r.2, tag, r.1⟩

/-- Reference stream for the short-circuit statement: every op executed
unconditionally in order (threading the state), no stopping. -/
def runAllOps (H : HandlerMap σ) : σ → List Nat → List OpResult
  | _, [] => []
  | s, op :: rest =>
    match H op with
    | none => ⟨OP_ILLEGAL, NFS4ERR_OP_ILLEGAL, []⟩ :: runAllOps H s rest
    | some h =>
      let r := h s
      ⟨op, r.2.1, r.2.2⟩ :: runAllOps H r.1 rest

/-- The prefix of a list up to and including its first element satisfying `p`. -/
def takeThrough (p : α → Bool) : List α → List α
  | [] => []
  | a :: as => if p a then [a] else a :: takeThrough p as

/-! ## CompoundState and PUTFH (src/nfs4/nfs4_server.cpp) -/

/-- The shared per-request `CompoundState`. -/
structure CompoundState where
  current_fh : FileHandle := []
  current_fh_set : Bool := false
  saved_fh : FileHandle := []
  saved_fh_set : Bool := false
  uid : Nat := 0
  gid : Nat := 0
deriving DecidableEq, Repr

/-- `Nfs4Server::op_putfh` after decoding the variable-length opaque handle:
`fh.len = min(opaque.size(), sizeof(fh.data))`, memcpy of the first `len`
bytes, set as current filehandle, NFS4_OK. -/
def op_putfh (cs : CompoundState) (handleBytes : List Nat) : Nfs4Stat × CompoundState :=
  let fh : FileHandle := handleBytes.take (min handleBytes.length NFS3_FHSIZE)
  (NFS4_OK, { cs with current_fh := fh, current_fh_set := true })

/-! ## OPEN claim dispatch (src/nfs4/nfs4_server.cpp, op_open) -/

/-- `is_valid_utf8` from nfs4_server.cpp, over the byte sequence. -/
def is_valid_utf8 : List Nat → Bool
  | [] => true
  | b :: rest =>
    if b < 0x80 then is_valid_utf8 rest
    else if b &&& 0xE0 = 0xC0 then
      match rest with
      | b1 :: rest2 =>
        if b1 &&& 0xC0 ≠ 0x80 then false
        else if b < 0xC2 then false
        else is_valid_utf8 rest2
      | [] => false
    else if b &&& 0xF0 = 0xE0 then
      match rest with
      | b1 :: b2 :: rest3 =>
        if b1 &&& 0xC0 ≠ 0x80 ∨ b2 &&& 0xC0 ≠ 0x80 then false
        else
          let cp := ((b &&& 0x0F) <<< 12) ||| ((b1 &&& 0x3F) <<< 6) ||| (b2 &&& 0x3F)
          if cp < 0x800 ∨ (0xD800 ≤ cp ∧ cp ≤ 0xDFFF) then false
          else is_valid_utf8 rest3
      | _ => false
    else if b &&& 0xF8 = 0xF0 then
      match rest with
      | b1 :: b2 :: b3 :: rest4 =>
        if b1 &&& 0xC0 ≠ 0x80 ∨ b2 &&& 0xC0 ≠ 0x80 ∨ b3 &&& 0xC0 ≠ 0x80 then false
        else
          let cp := ((b &&& 0x07) <<< 18) ||| ((b1 &&& 0x3F) <<< 12) |||
                    ((b2 &&& 0x3F) <<< 6) ||| (b3 &&& 0x3F)
          if cp < 0x10000 ∨ cp > 0x10FFFF then false
          else is_valid_utf8 rest4
      | _ => false
    else false

/-- Outcome of the open_claim4 dispatch inside `Nfs4Server::op_open`: either
an immediate return with a status, or fall-through into the lookup/create and
state-manager phase with the decoded name. -/
inductive ClaimOutcome where
  | halt (status : Nfs4Stat)
  | proceed (name : List Nat)
deriving DecidableEq, Repr

/-- `Nfs4StateManager::is_special_stateid`. -/
def is_special_stateid (sid : Nfs4StateId) : Bool :=
  (decide (sid.seqid = 0) && decide (sid.other = List.replicate 12 0)) ||
  (decide (sid.seqid = 0) && decide (sid.other = List.replicate 12 0xFF)) ||
  (decide (sid.seqid = U32MAX) && decide (sid.other = List.replicate 12 0xFF))

/-- `Nfs4StateManager::validate_stateid` (read-only; used by CLAIM_DELEGATE_CUR). -/
def validate_stateid (st : MgrState) (stateid : Nfs4StateId) (required_access : Nat) :
    Nfs4Stat :=
  if is_special_stateid stateid then NFS4_OK
  else
    match find_open_state st stateid with
    | some os => if required_access &&& os.access ≠ required_access then NFS4ERR_ACCESS
                 else NFS4_OK
    | none =>
      match find_lock_state st stateid with
      | some _ => NFS4_OK
      | none =>
        match st.deleg_states.find? (fun ds => decide (ds.stateid.other = stateid.other)) with
        | some ds =>
          if ds.deleg_type = OPEN_DELEGATE_READ ∧
             required_access &&& OPEN4_SHARE_ACCESS_WRITE ≠ 0 then NFS4ERR_ACCESS
          else NFS4_OK
        | none => NFS4ERR_BAD_STATEID

/-- The open_claim4 dispatch of `Nfs4Server::op_open` (lines 470-493): the
manager state `st` is in scope (it carries the grace flag and the tables that
CLAIM_DELEGATE_CUR validates against), `share_access` is the decoded share
access, `name` the claim name bytes and `deleg_cur_stateid` the delegation
stateid decoded for CLAIM_DELEGATE_CUR. CLAIM_PREVIOUS returns
NFS4ERR_NO_GRACE on every path; no field of `st` is consulted for it. -/
def op_open_claim (st : MgrState) (share_access claim_type : Nat) (name : List Nat)
    (deleg_cur_stateid : Nfs4StateId) : ClaimOutcome :=
  if claim_type = CLAIM_NULL then
    if !is_valid_utf8 name then .halt NFS4ERR_INVAL else .proceed name
  else if claim_type = CLAIM_PREVIOUS then .halt NFS4ERR_NO_GRACE
  else if claim_type = CLAIM_DELEGATE_CUR then
    if !is_valid_utf8 name then .halt NFS4ERR_INVAL
    else
      let vs := validate_stateid st deleg_cur_stateid share_access
      if vs ≠ NFS4_OK then .halt vs else .proceed name
  else if claim_type = CLAIM_DELEGATE_PREV then
    if !is_valid_utf8 name then .halt NFS4ERR_INVAL else .halt NFS4ERR_NO_GRACE
  else .halt NFS4ERR_NOTSUPP

/-! ## Universal address parsing (src/nfs4/nfs4_callback.cpp) -/

/-- Split on a delimiter keeping every (possibly empty) token: n delimiters
give n+1 tokens. -/
def charSplitOn (d : Char) : List Char → List (List Char)
  | [] => [[]]
  | c :: cs =>
    if c = d then [] :: charSplitOn d cs
    else
      match charSplitOn d cs with
      | [] => [[c]]
      | t :: ts => (c :: t) :: ts

/-- The token list produced by the `while (std::getline(iss, token, delim))`
loop: getline fails only when no character is available, so an empty input
yields no tokens and a trailing delimiter does not produce a final empty
token. -/
def getlineTokens (d : Char) (s : List Char) : List (List Char) :=
  if s = [] then []
  else if s.getLast? = some d then (charSplitOn d s).dropLast
  else charSplitOn d s

def isSpaceChar (c : Char) : Bool :=
  c = ' ' || c = '\t' || c = '\n' || c = '\x0b' || c = '\x0c' || c = '\r'

def isDigitChar (c : Char) : Bool := decide ('0' ≤ c) && decide (c ≤ '9')

/-- `std::stoul(s)` in base 10 on a 64-bit unsigned long: skip leading
whitespace, optional sign, then the longest digit prefix; no digits or a
magnitude beyond ULONG_MAX throws (modelled as none); a minus sign wraps the
value modulo 2^64; trailing non-digit characters are ignored. -/
def stoulModel (s : List Char) : Option Nat :=
  let s1 := s.dropWhile isSpaceChar
  let signed : Bool × List Char :=
    match s1 with
    | '-' :: rest => (true, rest)
    | '+' :: rest => (false, rest)
    | _ => (false, s1)
  let ds := signed.2.takeWhile isDigitChar
  if ds = [] then none
  else
    let v := ds.foldl (fun acc c => acc * 10 + (c.toNat - 48)) 0
    if v > U64MAX then none
    else some (if signed.1 then (U64MOD - v % U64MOD) % U64MOD else v)

/-- The part of `parse_universal_addr` after the token split: require six
parts; host is the first four joined by dots; the fifth and sixth parts go
through std::stoul and must be at most 255; port is p1*256 + p2. -/
def parseTokens : List (List Char) → Option (List Char × Nat)
  | [h1, h2, h3, h4, p1s, p2s] =>
    let host := h1 ++ '.' :: h2 ++ '.' :: h3 ++ '.' :: h4
    match stoulModel p1s, stoulModel p2s with
    | some p1, some p2 =>
      if p1 > 255 ∨ p2 > 255 then none else some (host, p1 * 256 + p2)
    | _, _ => none
  | _ => none

/-- `parse_universal_addr` from nfs4_callback.cpp: split on dots with the
getline loop, then parse the six parts. -/
def parse_universal_addr (r_addr : List Char) : Option (List Char × Nat) :=
  parseTokens (getlineTokens '.' r_addr)

/-! ## Coverage semantics for byte ranges (used to state the lock claims) -/

/-- The byte positions a range covers, consistent with the end arithmetic of
`ranges_overlap` (a to-EOF range covers every representable position). -/
def coversAt (o l x : Nat) : Prop := o ≤ x ∧ x < u64end o l

/-- A well-formed uint64 range: offset fits and a finite range does not wrap. -/
def wfR (o l : Nat) : Prop := o < U64MOD ∧ (l = U64MAX ∨ o + l < U64MOD)

/-- Coverage of an owner on one filehandle across a whole table. -/
def ownerCovers (tbl : ByteRangeLockTable) (fh : FileHandle) (owner : LockOwnerKey)
    (x : Nat) : Prop :=
  ∃ e ∈ tbl, e.fh = fh ∧ e.owner = owner ∧ ∃ r ∈ e.ranges, coversAt r.offset r.length x

/-! ## Concrete fixtures used by witnesses and counterexamples -/

def exCbInfo : Nfs4CallbackInfo := ⟨0, "tcp", "", 0, false⟩

def exClient : Nfs4Client := ⟨7, [], [], [9], true, 0, exCbInfo⟩

def exOther : List Nat := List.replicate 12 5

def exOpen : Nfs4OpenState := ⟨⟨1, exOther⟩, 7, [1], 3, 0, [1], 1, true⟩

def exMgr : MgrState := ⟨8, 1, [(7, exClient)], [([9], 7)], [exOpen], [], [], true⟩

def exHandlers : HandlerMap Nat := fun op =>
  if op = 1 then some (fun s => (s + 1, NFS4_OK, [op]))
  else if op = 2 then some (fun s => (s, NFS4ERR_INVAL, []))
  else none

def exLock : Nfs4LockState :=
  ⟨⟨1, gen_stateid_other 1⟩, ⟨7, [2]⟩, [1], 7, exOther, 0, [⟨0, 100, 2⟩]⟩

def exMgrL : MgrState := { exMgr with lock_states := [exLock] }

/-! # Theorems -/

/-! ## C10: a conflicting acquire leaves the shared table unchanged -/

/-- C10. For every `acquire(fh, owner, exclusive, offset, length)` call on the
shared byte-range lock table that reports a conflict (returns false), the table
is left completely unchanged: no entry is created and no range is added or
removed for any owner. -/
theorem acquire_conflict_leaves_table_unchanged (tbl : ByteRangeLockTable)
    (fh : FileHandle) (owner : LockOwnerKey) (exclusive : Bool) (offset length : Nat)
    (h : (acquire tbl fh owner exclusive offset length).1 = false) :
    (acquire tbl fh owner exclusive offset length).2 = tbl := by
  unfold acquire at h ⊢
  cases htest : test tbl fh owner exclusive offset length with
  | some c => simp [htest]
  | none =>
    cases hfe : find_entry tbl fh owner with
    | some e => simp [htest, hfe] at h
    | none => simp [htest, hfe] at h

/-- Witness for C10 at a concrete conflicting call. -/
theorem acquire_conflict_leaves_table_unchanged_witness :
    (acquire [⟨"a", [1], [⟨0, 10, true⟩]⟩] [1] "b" false 5 1).1 = false ∧
    (acquire [⟨"a", [1], [⟨0, 10, true⟩]⟩] [1] "b" false 5 1).2 =
      [⟨"a", [1], [⟨0, 10, true⟩]⟩] :=
  ⟨by decide, acquire_conflict_leaves_table_unchanged _ _ _ _ _ _ (by decide)⟩

/-! ## C9: PUTFH silently truncates oversized handles -/

/-- C9. For every PUTFH argument whose opaque filehandle is longer than 64
bytes, the operation does not fail: it truncates the handle to its first 64
bytes, sets that as the current filehandle, and returns NFS4_OK. -/
theorem op_putfh_truncates (cs : CompoundState) (bytes : List Nat)
    (h : 64 < bytes.length) :
    (op_putfh cs bytes).1 = NFS4_OK ∧
    (op_putfh cs bytes).2.current_fh = bytes.take 64 ∧
    (op_putfh cs bytes).2.current_fh_set = true := by
  refine ⟨rfl, ?_, rfl⟩
  simp only [op_putfh, NFS3_FHSIZE]
  rw [Nat.min_eq_right (by omega)]

/-- Witness for C9 on a 65-byte handle. -/
theorem op_putfh_truncates_witness :
    (op_putfh {} (List.replicate 65 3)).1 = NFS4_OK ∧
    (op_putfh {} (List.replicate 65 3)).2.current_fh = (List.replicate 65 3).take 64 ∧
    (op_putfh {} (List.replicate 65 3)).2.current_fh_set = true :=
  op_putfh_truncates {} (List.replicate 65 3) (by decide)

/-! ## C4: CLAIM_PREVIOUS is refused even during the grace period -/

/-- C4. The claim dispatch of op_open answers CLAIM_PREVIOUS with
NFS4ERR_NO_GRACE on every path, in particular while the manager state still has
its startup grace flag set: no state field is consulted before the return, so
an OPEN reclaim is never honored during grace. -/
theorem op_open_claim_previous_always_no_grace (st : MgrState) (share_access : Nat)
    (name : List Nat) (sid : Nfs4StateId) (_hgrace : st.in_grace_period = true) :
    op_open_claim st share_access CLAIM_PREVIOUS name sid =
      ClaimOutcome.halt NFS4ERR_NO_GRACE := rfl

/-- Witness for C4 on a freshly started manager state (grace flag true). -/
theorem op_open_claim_previous_always_no_grace_witness :
    op_open_claim exMgr 3 CLAIM_PREVIOUS [] ⟨0, []⟩ =
      ClaimOutcome.halt NFS4ERR_NO_GRACE :=
  op_open_claim_previous_always_no_grace exMgr 3 [] ⟨0, []⟩ rfl

/-! ## C1: COMPOUND short-circuit -/

theorem runOps_results_eq (H : HandlerMap σ) :
    ∀ (ops : List Nat) (s : σ),
      (runOps H s ops).1 =
        takeThrough (fun r => decide (r.status ≠ NFS4_OK)) (runAllOps H s ops)
  | [], _ => rfl
  | op :: rest, s => by
    cases hH : H op with
    | none =>
      simp [runOps, runAllOps, hH, takeThrough, NFS4ERR_OP_ILLEGAL, NFS4_OK]
    | some h =>
      by_cases hst : (h s).2.1 = NFS4_OK
      · simpa [runOps, runAllOps, hH, hst, takeThrough] using
          runOps_results_eq H rest (h s).1
      · simp [runOps, runAllOps, hH, hst, takeThrough]

theorem runOps_status_eq (H : HandlerMap σ) :
    ∀ (ops : List Nat) (s : σ),
      (runOps H s ops).2 = (((runOps H s ops).1).map OpResult.status).getLastD NFS4_OK
  | [], _ => rfl
  | op :: rest, s => by
    cases hH : H op with
    | none => simp [runOps, hH]
    | some h =>
      by_cases hst : (h s).2.1 = NFS4_OK
      · have IH := runOps_status_eq H rest (h s).1
        simp only [runOps, hH, hst, List.map_cons, List.getLastD_cons,
          eq_self_iff_true, if_true]
        exact IH
      · simp [runOps, hH, hst]

theorem takeThrough_getD_not_p (p : α → Bool) (d : α) :
    ∀ (l : List α) (i : Nat), i + 1 < (takeThrough p l).length →
      p ((takeThrough p l).getD i d) = false
  | [], i, h => by simp [takeThrough] at h
  | a :: as, i, h => by
    by_cases hp : p a = true
    · simp [takeThrough, hp] at h
    · cases i with
      | zero =>
        simp only [takeThrough, hp, if_false, List.getD_cons_zero]
        exact Bool.not_eq_true _ ▸ eq_false_of_ne_true hp
      | succ j =>
        have hlen : j + 1 < (takeThrough p as).length := by
          simpa [takeThrough, hp] using h
        simpa [takeThrough, hp] using takeThrough_getD_not_p p d as j hlen

/-- C1. For every COMPOUND request with minorversion 0, the operations are
executed strictly in order: the result list equals the prefix of the in-order
execution stream up to and including the first operation with a non-NFS4_OK
status (no results beyond it), the compound status is the status of the last
buffered result (NFS4_OK when no op ran), and every result before the last one
has status NFS4_OK. -/
theorem proc_compound_short_circuit (H : HandlerMap σ) (tag : List Nat)
    (minorversion : Nat) (s : σ) (ops : List Nat) (hmv : minorversion = 0) :
    (proc_compound H tag minorversion s ops).results =
        takeThrough (fun r => decide (r.status ≠ NFS4_OK)) (runAllOps H s ops) ∧
    (proc_compound H tag minorversion s ops).status =
        (((proc_compound H tag minorversion s ops).results).map OpResult.status).getLastD
          NFS4_OK ∧
    ∀ i, i + 1 < (proc_compound H tag minorversion s ops).results.length →
      ((proc_compound H tag minorversion s ops).results.getD i ⟨0, NFS4_OK, []⟩).status =
        NFS4_OK := by
  subst hmv
  have hres : (proc_compound H tag 0 s ops).results =
      takeThrough (fun r => decide (r.status ≠ NFS4_OK)) (runAllOps H s ops) := by
    simpa [proc_compound] using runOps_results_eq H ops s
  refine ⟨hres, ?_, ?_⟩
  · simpa [proc_compound] using runOps_status_eq H ops s
  · intro i hi
    rw [hres] at hi ⊢
    have hfalse := takeThrough_getD_not_p
      (fun r => decide (r.status ≠ NFS4_OK)) ⟨0, NFS4_OK, []⟩ (runAllOps H s ops) i hi
    simpa using hfalse

/-- Witness for C1 on a concrete handler table and op list. -/
theorem proc_compound_short_circuit_witness :
    (proc_compound exHandlers [] 0 0 [1, 1, 2, 1]).results =
        takeThrough (fun r => decide (r.status ≠ NFS4_OK))
          (runAllOps exHandlers 0 [1, 1, 2, 1]) ∧
    (proc_compound exHandlers [] 0 0 [1, 1, 2, 1]).status =
        (((proc_compound exHandlers [] 0 0 [1, 1, 2, 1]).results).map
            OpResult.status).getLastD NFS4_OK ∧
    ∀ i, i + 1 < (proc_compound exHandlers [] 0 0 [1, 1, 2, 1]).results.length →
      ((proc_compound exHandlers [] 0 0 [1, 1, 2, 1]).results.getD i
          ⟨0, NFS4_OK, []⟩).status = NFS4_OK :=
  proc_compound_short_circuit exHandlers [] 0 0 [1, 1, 2, 1] rfl

/-! ## C8: universal address parsing -/

/-- C8 counterexample. The first four (host) parts are never validated:
`"a.b.c.d.0.1"` is not a well-formed dotted-decimal universal address, yet
parsing succeeds with host `"a.b.c.d"` and port 1, refuting the claim that any
non-numeric part is a parse error. -/
theorem parse_universal_addr_host_not_validated :
    parse_universal_addr ("a.b.c.d.0.1".toList) = some ("a.b.c.d".toList, 1) := by
  decide

theorem parseTokens_length_ne_six (ts : List (List Char)) (h : ts.length ≠ 6) :
    parseTokens ts = none := by
  unfold parseTokens
  split
  · rename_i a b c d e f
    exact absurd rfl h
  · rfl

/-- C8 amended. Universal-address parsing succeeds exactly on inputs whose
getline split on dots gives six parts where the fifth and sixth parse under
std::stoul semantics to values at most 255; the host is the first four parts
joined by dots (not validated at all) and the port is p1*256 + p2; any other
part count is a parse error. -/
theorem parse_universal_addr_characterization :
    (∀ s : List Char, (getlineTokens '.' s).length ≠ 6 → parse_universal_addr s = none) ∧
    (∀ (s h1 h2 h3 h4 p1s p2s : List Char),
      getlineTokens '.' s = [h1, h2, h3, h4, p1s, p2s] →
      ∀ (host : List Char) (port : Nat),
        parse_universal_addr s = some (host, port) ↔
          ∃ p1 p2, stoulModel p1s = some p1 ∧ stoulModel p2s = some p2 ∧
            p1 ≤ 255 ∧ p2 ≤ 255 ∧
            host = h1 ++ '.' :: h2 ++ '.' :: h3 ++ '.' :: h4 ∧
            port = p1 * 256 + p2) := by
  constructor
  · intro s hlen
    unfold parse_universal_addr
    exact parseTokens_length_ne_six _ hlen
  · intro s h1 h2 h3 h4 p1s p2s htok host port
    unfold parse_universal_addr
    rw [htok]
    unfold parseTokens
    cases hp1 : stoulModel p1s with
    | none => simp [hp1]
    | some p1 =>
      cases hp2 : stoulModel p2s with
      | none => simp [hp1, hp2]
      | some p2 =>
        by_cases hbig : p1 > 255 ∨ p2 > 255
        · simp only [hp1, hp2, if_pos hbig]
          constructor
          · intro hc; simp at hc
          · rintro ⟨q1, q2, hq1, hq2, hle1, hle2, -, -⟩
            injection hq1 with e1; injection hq2 with e2
            omega
        · simp only [hp1, hp2, if_neg hbig]
          constructor
          · intro hc
            injection hc with hpair
            refine ⟨p1, p2, rfl, rfl, by omega, by omega, ?_, ?_⟩
            · exact (congrArg Prod.fst hpair).symm
            · exact (congrArg Prod.snd hpair).symm
          · rintro ⟨q1, q2, hq1, hq2, -, -, hhost, hport⟩
            injection hq1 with e1; injection hq2 with e2
            subst e1; subst e2; subst hhost; subst hport; rfl

/-- Witness for C8 on a wrong part count and on seed test G. -/
theorem parse_universal_addr_characterization_witness :
    parse_universal_addr ("1.2.3.4.5".toList) = none ∧
    parse_universal_addr ("192.168.1.1.8.1".toList) = some ("192.168.1.1".toList, 2049) := by
  constructor
  · exact parse_universal_addr_characterization.1 _ (by decide)
  · exact (parse_universal_addr_characterization.2 ("192.168.1.1.8.1".toList)
      ("192".toList) ("168".toList) ("1".toList) ("1".toList) ("8".toList) ("1".toList)
      (by decide) ("192.168.1.1".toList) 2049).mpr
      ⟨8, 1, by decide, by decide, by decide, by decide, by decide, by decide⟩

/-! ## C5: lock conflict characterization -/

theorem testRanges_isSome (exclusive : Bool) (offset length : Nat) :
    ∀ rs : List LockRange,
      (testRanges exclusive offset length rs).isSome ↔
        ∃ r ∈ rs, (exclusive = true ∨ r.exclusive = true) ∧
          ranges_overlap offset length r.offset r.length = true
  | [] => by simp [testRanges]
  | r :: rs => by
    by_cases hskip : (!exclusive && !r.exclusive) = true
    · have hex : ¬(exclusive = true ∨ r.exclusive = true) := by
        rintro (he | he) <;> simp [he] at hskip
      have heq : testRanges exclusive offset length (r :: rs) =
          testRanges exclusive offset length rs := by
        simp only [testRanges]
        rw [if_pos hskip]
      rw [heq, testRanges_isSome exclusive offset length rs]
      constructor
      · rintro ⟨q, hq, hcase⟩; exact ⟨q, List.mem_cons_of_mem _ hq, hcase⟩
      · rintro ⟨q, hq, hcase⟩
        rcases List.mem_cons.mp hq with rfl | hq2
        · exact absurd hcase.1 hex
        · exact ⟨q, hq2, hcase⟩
    · have hex : exclusive = true ∨ r.exclusive = true := by
        by_cases he : exclusive = true
        · exact Or.inl he
        · by_cases hre : r.exclusive = true
          · exact Or.inr hre
          · exact absurd
              (by simp [eq_false_of_ne_true he, eq_false_of_ne_true hre]) hskip
      by_cases hov : ranges_overlap offset length r.offset r.length = true
      · have heq : testRanges exclusive offset length (r :: rs) = some r := by
          simp only [testRanges]
          rw [if_neg hskip, if_pos hov]
        rw [heq]
        simp only [Option.isSome_some, true_iff]
        exact ⟨r, List.mem_cons_self _ _, hex, hov⟩
      · have heq : testRanges exclusive offset length (r :: rs) =
            testRanges exclusive offset length rs := by
          simp only [testRanges]
          rw [if_neg hskip, if_neg hov]
        rw [heq, testRanges_isSome exclusive offset length rs]
        constructor
        · rintro ⟨q, hq, hcase⟩; exact ⟨q, List.mem_cons_of_mem _ hq, hcase⟩
        · rintro ⟨q, hq, hcase⟩
          rcases List.mem_cons.mp hq with rfl | hq2
          · exact absurd hcase.2 hov
          · exact ⟨q, hq2, hcase⟩

theorem test_isSome (fh : FileHandle) (requester : LockOwnerKey) (exclusive : Bool)
    (offset length : Nat) :
    ∀ tbl : ByteRangeLockTable,
      (test tbl fh requester exclusive offset length).isSome ↔
        ∃ e ∈ tbl, e.fh = fh ∧ e.owner ≠ requester ∧
          ∃ r ∈ e.ranges, (exclusive = true ∨ r.exclusive = true) ∧
            ranges_overlap offset length r.offset r.length = true
  | [] => by simp [test]
  | e :: es => by
    by_cases hkeyb : (decide (e.fh = fh) && decide (e.owner ≠ requester)) = true
    · obtain ⟨hf, ho⟩ := Bool.and_eq_true _ _ |>.mp hkeyb
      rw [decide_eq_true_eq] at hf ho
      cases htr : testRanges exclusive offset length e.ranges with
      | some r =>
        have hsome : (testRanges exclusive offset length e.ranges).isSome := by
          rw [htr]; rfl
        rw [testRanges_isSome] at hsome
        have heq : test (e :: es) fh requester exclusive offset length =
            some ⟨r.offset, r.length, r.exclusive, e.owner⟩ := by
          simp only [test]
          rw [if_pos hkeyb, htr]
        rw [heq]
        simp only [Option.isSome_some, true_iff]
        exact ⟨e, List.mem_cons_self _ _, hf, ho, hsome⟩
      | none =>
        have hnone : ¬∃ r ∈ e.ranges, (exclusive = true ∨ r.exclusive = true) ∧
            ranges_overlap offset length r.offset r.length = true := by
          rw [← testRanges_isSome exclusive offset length e.ranges]
          rw [htr]; simp
        have heq : test (e :: es) fh requester exclusive offset length =
            test es fh requester exclusive offset length := by
          simp only [test]
          rw [if_pos hkeyb, htr]
        rw [heq, test_isSome fh requester exclusive offset length es]
        constructor
        · rintro ⟨e2, he2, hprop⟩; exact ⟨e2, List.mem_cons_of_mem _ he2, hprop⟩
        · rintro ⟨e2, he2, hprop⟩
          rcases List.mem_cons.mp he2 with rfl | hm
          · exact absurd hprop.2.2 hnone
          · exact ⟨e2, hm, hprop⟩
    · have hkey2 : ¬(e.fh = fh ∧ e.owner ≠ requester) := by
        intro hc
        exact hkeyb (by simp [hc.1, hc.2])
      have heq : test (e :: es) fh requester exclusive offset length =
          test es fh requester exclusive offset length := by
        simp only [test]
        rw [if_neg hkeyb]
      rw [heq, test_isSome fh requester exclusive offset length es]
      constructor
      · rintro ⟨e2, he2, hprop⟩; exact ⟨e2, List.mem_cons_of_mem _ he2, hprop⟩
      · rintro ⟨e2, he2, hprop⟩
        rcases List.mem_cons.mp he2 with rfl | hm
        · exact absurd ⟨hprop.1, hprop.2.1⟩ hkey2
        · exact ⟨e2, hm, hprop⟩

theorem conflictRanges_isSome (locktype offset length : Nat)
    (hlt : locktype = READ_LT ∨ locktype = WRITE_LT) :
    ∀ rs : List Nfs4LockRange,
      (∀ r ∈ rs, r.locktype = READ_LT ∨ r.locktype = WRITE_LT) →
      ((conflictRanges locktype offset length rs).isSome ↔
        ∃ r ∈ rs, (locktype = WRITE_LT ∨ r.locktype = WRITE_LT) ∧
          ranges_overlap offset length r.offset r.length = true)
  | [], _ => by simp [conflictRanges]
  | r :: rs, hdom => by
    have hdomr := hdom r (List.mem_cons_self _ _)
    have hdomrs : ∀ q ∈ rs, q.locktype = READ_LT ∨ q.locktype = WRITE_LT :=
      fun q hq => hdom q (List.mem_cons_of_mem _ hq)
    by_cases hskip : locktype = READ_LT ∧ r.locktype = READ_LT
    · have hex : ¬(locktype = WRITE_LT ∨ r.locktype = WRITE_LT) := by
        simp only [READ_LT, WRITE_LT] at hskip ⊢
        omega
      have heq : conflictRanges locktype offset length (r :: rs) =
          conflictRanges locktype offset length rs := by
        simp only [conflictRanges]
        rw [if_pos hskip]
      rw [heq, conflictRanges_isSome locktype offset length hlt rs hdomrs]
      constructor
      · rintro ⟨q, hq, hcase⟩; exact ⟨q, List.mem_cons_of_mem _ hq, hcase⟩
      · rintro ⟨q, hq, hcase⟩
        rcases List.mem_cons.mp hq with rfl | hq2
        · exact absurd hcase.1 hex
        · exact ⟨q, hq2, hcase⟩
    · have hex : locktype = WRITE_LT ∨ r.locktype = WRITE_LT := by
        simp only [READ_LT, WRITE_LT] at hskip hlt hdomr ⊢
        omega
      by_cases hov : ranges_overlap offset length r.offset r.length = true
      · have heq : conflictRanges locktype offset length (r :: rs) = some r := by
          simp only [conflictRanges]
          rw [if_neg hskip, if_pos hov]
        rw [heq]
        simp only [Option.isSome_some, true_iff]
        exact ⟨r, List.mem_cons_self _ _, hex, hov⟩
      · have heq : conflictRanges locktype offset length (r :: rs) =
            conflictRanges locktype offset length rs := by
          simp only [conflictRanges]
          rw [if_neg hskip, if_neg hov]
        rw [heq, conflictRanges_isSome locktype offset length hlt rs hdomrs]
        constructor
        · rintro ⟨q, hq, hcase⟩; exact ⟨q, List.mem_cons_of_mem _ hq, hcase⟩
        · rintro ⟨q, hq, hcase⟩
          rcases List.mem_cons.mp hq with rfl | hq2
          · exact absurd hcase.2 hov
          · exact ⟨q, hq2, hcase⟩

theorem check_lock_conflict_isSome (fh : FileHandle) (requester : Nfs4LockOwner)
    (locktype offset length : Nat) (hlt : locktype = READ_LT ∨ locktype = WRITE_LT) :
    ∀ lss : List Nfs4LockState,
      (∀ ls ∈ lss, ∀ r ∈ ls.ranges, r.locktype = READ_LT ∨ r.locktype = WRITE_LT) →
      ((check_lock_conflict lss fh requester locktype offset length).isSome ↔
        ∃ ls ∈ lss, ls.fh = fh ∧ ls.lock_owner ≠ requester ∧
          ∃ r ∈ ls.ranges, (locktype = WRITE_LT ∨ r.locktype = WRITE_LT) ∧
            ranges_overlap offset length r.offset r.length = true)
  | [], _ => by simp [check_lock_conflict]
  | ls :: rest, hdom => by
    have hdomls := hdom ls (List.mem_cons_self _ _)
    have hdomrest : ∀ l ∈ rest, ∀ r ∈ l.ranges,
        r.locktype = READ_LT ∨ r.locktype = WRITE_LT :=
      fun l hl => hdom l (List.mem_cons_of_mem _ hl)
    by_cases hkeyb : (decide (ls.fh = fh) && decide (ls.lock_owner ≠ requester)) = true
    · obtain ⟨hf, ho⟩ := Bool.and_eq_true _ _ |>.mp hkeyb
      rw [decide_eq_true_eq] at hf ho
      cases htr : conflictRanges locktype offset length ls.ranges with
      | some r =>
        have hsome : (conflictRanges locktype offset length ls.ranges).isSome := by
          rw [htr]; rfl
        rw [conflictRanges_isSome locktype offset length hlt ls.ranges hdomls] at hsome
        have heq : check_lock_conflict (ls :: rest) fh requester locktype offset length =
            some ⟨r.offset, r.length, r.locktype, ls.lock_owner⟩ := by
          simp only [check_lock_conflict]
          rw [if_pos hkeyb, htr]
        rw [heq]
        simp only [Option.isSome_some, true_iff]
        exact ⟨ls, List.mem_cons_self _ _, hf, ho, hsome⟩
      | none =>
        have hnone : ¬∃ r ∈ ls.ranges, (locktype = WRITE_LT ∨ r.locktype = WRITE_LT) ∧
            ranges_overlap offset length r.offset r.length = true := by
          rw [← conflictRanges_isSome locktype offset length hlt ls.ranges hdomls]
          rw [htr]; simp
        have heq : check_lock_conflict (ls :: rest) fh requester locktype offset length =
            check_lock_conflict rest fh requester locktype offset length := by
          simp only [check_lock_conflict]
          rw [if_pos hkeyb, htr]
        rw [heq, check_lock_conflict_isSome fh requester locktype offset length hlt
          rest hdomrest]
        constructor
        · rintro ⟨l2, hl2, hprop⟩; exact ⟨l2, List.mem_cons_of_mem _ hl2, hprop⟩
        · rintro ⟨l2, hl2, hprop⟩
          rcases List.mem_cons.mp hl2 with rfl | hm
          · exact absurd hprop.2.2 hnone
          · exact ⟨l2, hm, hprop⟩
    · have hkey2 : ¬(ls.fh = fh ∧ ls.lock_owner ≠ requester) := by
        intro hc
        exact hkeyb (by simp [hc.1, hc.2])
      have heq : check_lock_conflict (ls :: rest) fh requester locktype offset length =
          check_lock_conflict rest fh requester locktype offset length := by
        simp only [check_lock_conflict]
        rw [if_neg hkeyb]
      rw [heq, check_lock_conflict_isSome fh requester locktype offset length hlt
        rest hdomrest]
      constructor
      · rintro ⟨l2, hl2, hprop⟩; exact ⟨l2, List.mem_cons_of_mem _ hl2, hprop⟩
      · rintro ⟨l2, hl2, hprop⟩
        rcases List.mem_cons.mp hl2 with rfl | hm
        · exact absurd ⟨hprop.1, hprop.2.1⟩ hkey2
        · exact ⟨l2, hm, hprop⟩

/-- C5. Both conflict tests (the shared lock table `test` and the NFSv4
`check_lock_conflict`) report a conflict exactly when some range held by a
different owner on the same filehandle overlaps the requested window and at
least one of the two locks is exclusive (WRITE): same-owner ranges never
conflict and two non-exclusive (READ) locks are always compatible. The NFSv4
statement is over the READ_LT/WRITE_LT lock types the server passes after
normalizing the wait variants. -/
theorem lock_conflict_characterization :
    (∀ (tbl : ByteRangeLockTable) (fh : FileHandle) (requester : LockOwnerKey)
       (exclusive : Bool) (offset length : Nat),
      (test tbl fh requester exclusive offset length).isSome ↔
        ∃ e ∈ tbl, e.fh = fh ∧ e.owner ≠ requester ∧
          ∃ r ∈ e.ranges, (exclusive = true ∨ r.exclusive = true) ∧
            ranges_overlap offset length r.offset r.length = true) ∧
    (∀ (lss : List Nfs4LockState) (fh : FileHandle) (requester : Nfs4LockOwner)
       (locktype offset length : Nat),
      locktype = READ_LT ∨ locktype = WRITE_LT →
      (∀ ls ∈ lss, ∀ r ∈ ls.ranges, r.locktype = READ_LT ∨ r.locktype = WRITE_LT) →
      ((check_lock_conflict lss fh requester locktype offset length).isSome ↔
        ∃ ls ∈ lss, ls.fh = fh ∧ ls.lock_owner ≠ requester ∧
          ∃ r ∈ ls.ranges, (locktype = WRITE_LT ∨ r.locktype = WRITE_LT) ∧
            ranges_overlap offset length r.offset r.length = true)) :=
  ⟨fun tbl fh requester exclusive offset length =>
     test_isSome fh requester exclusive offset length tbl,
   fun lss fh requester locktype offset length hlt hdom =>
     check_lock_conflict_isSome fh requester locktype offset length hlt lss hdom⟩

/-- Witness for C5: two READ locks of different owners on overlapping ranges do
not conflict in either implementation, while a WRITE request overlapping a READ
range of another owner does. -/
theorem lock_conflict_characterization_witness :
    ((test [⟨"a", [1], [⟨0, 100, false⟩]⟩] [1] "b" false 50 100).isSome ↔
      ∃ e ∈ [(⟨"a", [1], [⟨0, 100, false⟩]⟩ : LockEntry)], e.fh = [1] ∧ e.owner ≠ "b" ∧
        ∃ r ∈ e.ranges, (false = true ∨ r.exclusive = true) ∧
          ranges_overlap 50 100 r.offset r.length = true) ∧
    ((check_lock_conflict [⟨⟨1, []⟩, ⟨7, [2]⟩, [1], 7, [], 0, [⟨0, 100, READ_LT⟩]⟩]
        [1] ⟨8, [3]⟩ WRITE_LT 50 100).isSome ↔
      ∃ ls ∈ [(⟨⟨1, []⟩, ⟨7, [2]⟩, [1], 7, [], 0, [⟨0, 100, READ_LT⟩]⟩ : Nfs4LockState)],
        ls.fh = [1] ∧ ls.lock_owner ≠ ⟨8, [3]⟩ ∧
          ∃ r ∈ ls.ranges, (WRITE_LT = WRITE_LT ∨ r.locktype = WRITE_LT) ∧
            ranges_overlap 50 100 r.offset r.length = true) :=
  ⟨lock_conflict_characterization.1 _ _ _ _ _ _,
   lock_conflict_characterization.2 _ _ _ _ _ _ (Or.inr rfl) (by decide)⟩

/-! ## C2: coverage after range removal -/

theorem U64MAX_succ : U64MAX + 1 = U64MOD := by norm_num [U64MAX, U64MOD]

theorem u64end_le (o l : Nat) : u64end o l ≤ U64MAX := by
  unfold u64end
  split
  · exact le_refl _
  · have : (o + l) % U64MOD < U64MOD := Nat.mod_lt _ (by norm_num [U64MOD])
    have h := U64MAX_succ
    omega

theorem u64end_max_len (o : Nat) : u64end o U64MAX = U64MAX := by simp [u64end]

theorem u64end_fin (o l : Nat) (hl : l ≠ U64MAX) (hfin : o + l < U64MOD) :
    u64end o l = o + l := by
  simp [u64end, hl, Nat.mod_eq_of_lt hfin]

theorem u64end_left_remnant (r0 o : Nat) (h1 : r0 < o) (h2 : o ≤ U64MAX) :
    u64end r0 (o - r0) = o := by
  have hM : U64MAX = 18446744073709551615 := by norm_num [U64MAX]
  have hD : U64MOD = 18446744073709551616 := by norm_num [U64MOD]
  rw [hM] at h2
  unfold u64end
  rw [hM, hD]
  split
  · next h => omega
  · next h => omega

theorem u64end_right_remnant (w e2 : Nat) (h1 : 0 < w) (h2 : w < e2)
    (h3 : e2 ≤ U64MAX) : u64end w (e2 - w) = e2 := by
  have hM : U64MAX = 18446744073709551615 := by norm_num [U64MAX]
  have hD : U64MOD = 18446744073709551616 := by norm_num [U64MOD]
  rw [hM] at h3
  unfold u64end
  rw [hM, hD]
  split
  · next h => omega
  · next h => omega

theorem coversAt_rangeRemnants (o l : Nat) (hw : wfR o l) (r : LockRange)
    (hr : wfR r.offset r.length) (x : Nat) :
    (∃ r2 ∈ rangeRemnants o l (u64end o l) r, coversAt r2.offset r2.length x) ↔
      (coversAt r.offset r.length x ∧ ¬(o ≤ x ∧ x < u64end o l)) := by
  obtain ⟨ho, hl⟩ := hw
  obtain ⟨hro, hrl⟩ := hr
  have hMD := U64MAX_succ
  have hwe : u64end o l ≤ U64MAX := u64end_le o l
  have hre : u64end r.offset r.length ≤ U64MAX := u64end_le r.offset r.length
  have hreL : r.offset < u64end r.offset r.length ∨ ¬coversAt r.offset r.length x := by
    by_cases hc : coversAt r.offset r.length x
    · exact Or.inl (lt_of_le_of_lt hc.1 hc.2)
    · exact Or.inr hc
  by_cases hovb : ranges_overlap o l r.offset r.length = true
  · have hov : o < u64end r.offset r.length ∧ r.offset < u64end o l := by
      simpa [ranges_overlap] using hovb
    have hwpos : 0 < u64end o l := lt_of_le_of_lt (Nat.zero_le _) hov.2
    -- the end of range r, as plain arithmetic
    have hrend : u64end r.offset r.length = U64MAX ∨
        (r.length ≠ U64MAX ∧ u64end r.offset r.length = r.offset + r.length) := by
      by_cases hrm : r.length = U64MAX
      · rw [hrm]; exact Or.inl (u64end_max_len _)
      · rcases hrl with h | h
        · exact absurd h hrm
        · exact Or.inr ⟨hrm, u64end_fin _ _ hrm h⟩
    simp only [rangeRemnants, if_pos hovb]
    by_cases hL : r.offset < o
    · by_cases hR : u64end r.offset r.length > u64end o l ∧ u64end o l ≠ U64MAX
      · -- both remnants
        have hLend : u64end r.offset (o - r.offset) = o :=
          u64end_left_remnant _ _ hL (by omega)
        have hRend : u64end (u64end o l)
            (if r.length = U64MAX then U64MAX else u64end r.offset r.length - u64end o l) =
            u64end r.offset r.length := by
          by_cases hrm : r.length = U64MAX
          · rw [if_pos hrm, u64end_max_len]
            rcases hrend with h | h
            · omega
            · exact absurd hrm h.1
          · rw [if_neg hrm]
            exact u64end_right_remnant _ _ hwpos hR.1 hre
        simp only [if_pos hL, if_pos hR, List.mem_append, List.mem_singleton,
          List.mem_cons, List.not_mem_nil, or_false, coversAt]
        constructor
        · rintro ⟨r2, (rfl | rfl), hcov⟩
          · rw [hLend] at hcov
            simp only at hcov
            constructor
            · exact ⟨hcov.1, by omega⟩
            · omega
          · rw [hRend] at hcov
            simp only at hcov
            constructor
            · exact ⟨by omega, hcov.2⟩
            · omega
        · rintro ⟨⟨hc1, hc2⟩, hnw⟩
          by_cases hx : x < o
          · refine ⟨_, Or.inl rfl, ?_⟩
            simp only
            rw [hLend]
            exact ⟨hc1, hx⟩
          · refine ⟨_, Or.inr rfl, ?_⟩
            simp only
            rw [hRend]
            exact ⟨by omega, hc2⟩
      · -- only the left remnant
        have hLend : u64end r.offset (o - r.offset) = o :=
          u64end_left_remnant _ _ hL (by omega)
        simp only [if_pos hL, if_neg hR, List.append_nil, List.mem_singleton, coversAt]
        constructor
        · rintro ⟨r2, rfl, hcov⟩
          rw [hLend] at hcov
          simp only at hcov
          exact ⟨⟨hcov.1, by omega⟩, by omega⟩
        · rintro ⟨⟨hc1, hc2⟩, hnw⟩
          refine ⟨_, rfl, ?_⟩
          simp only
          rw [hLend]
          constructor
          · exact hc1
          · -- x < o: otherwise x is inside the window or beyond both ends
            rcases hrend with h | h <;> omega
    · by_cases hR : u64end r.offset r.length > u64end o l ∧ u64end o l ≠ U64MAX
      · -- only the right remnant
        have hRend : u64end (u64end o l)
            (if r.length = U64MAX then U64MAX else u64end r.offset r.length - u64end o l) =
            u64end r.offset r.length := by
          by_cases hrm : r.length = U64MAX
          · rw [if_pos hrm, u64end_max_len]
            rcases hrend with h | h
            · omega
            · exact absurd hrm h.1
          · rw [if_neg hrm]
            exact u64end_right_remnant _ _ hwpos hR.1 hre
        simp only [if_neg hL, if_pos hR, List.nil_append, List.mem_singleton, coversAt]
        constructor
        · rintro ⟨r2, rfl, hcov⟩
          rw [hRend] at hcov
          simp only at hcov
          exact ⟨⟨by omega, hcov.2⟩, by omega⟩
        · rintro ⟨⟨hc1, hc2⟩, hnw⟩
          refine ⟨_, rfl, ?_⟩
          simp only
          rw [hRend]
          exact ⟨by omega, hc2⟩
      · -- range fully swallowed by the window
        simp only [if_neg hL, if_neg hR, List.append_nil, List.not_mem_nil, coversAt]
        constructor
        · rintro ⟨r2, hmem, -⟩; exact absurd hmem (by simp)
        · rintro ⟨⟨hc1, hc2⟩, hnw⟩
          rcases hrend with h | h <;> omega
  · -- no overlap: the range is kept unchanged and lies outside the window
    have hov : ¬(o < u64end r.offset r.length ∧ r.offset < u64end o l) := by
      intro hc
      exact hovb (by simpa [ranges_overlap] using hc)
    simp only [rangeRemnants, if_neg hovb, List.mem_singleton, coversAt]
    constructor
    · rintro ⟨r2, rfl, hcov⟩
      refine ⟨hcov, ?_⟩
      rcases hreL with h | h
      · omega
      · exact absurd hcov h
    · rintro ⟨hcov, -⟩
      exact ⟨r, rfl, hcov⟩

theorem coversAt_remnants_flatten (o l : Nat) (hw : wfR o l) (rs : List LockRange)
    (hrs : ∀ r ∈ rs, wfR r.offset r.length) (x : Nat) :
    (∃ r2 ∈ (rs.map (rangeRemnants o l (u64end o l))).flatten,
        coversAt r2.offset r2.length x) ↔
      ((∃ r ∈ rs, coversAt r.offset r.length x) ∧ ¬(o ≤ x ∧ x < u64end o l)) := by
  constructor
  · rintro ⟨r2, hmem, hcov⟩
    rw [List.mem_flatten] at hmem
    obtain ⟨lst, hlst, hr2⟩ := hmem
    rw [List.mem_map] at hlst
    obtain ⟨r, hr, rfl⟩ := hlst
    have hm := (coversAt_rangeRemnants o l hw r (hrs r hr) x).mp ⟨r2, hr2, hcov⟩
    exact ⟨⟨r, hr, hm.1⟩, hm.2⟩
  · rintro ⟨⟨r, hr, hcov⟩, hnw⟩
    obtain ⟨r2, hr2, hcov2⟩ :=
      (coversAt_rangeRemnants o l hw r (hrs r hr) x).mpr ⟨hcov, hnw⟩
    exact ⟨r2, List.mem_flatten.mpr ⟨_, List.mem_map_of_mem _ hr, hr2⟩, hcov2⟩

theorem ownerCovers_cons (e : LockEntry) (t : ByteRangeLockTable) (fh : FileHandle)
    (ow : LockOwnerKey) (x : Nat) :
    ownerCovers (e :: t) fh ow x ↔
      ((e.fh = fh ∧ e.owner = ow ∧ ∃ r ∈ e.ranges, coversAt r.offset r.length x) ∨
        ownerCovers t fh ow x) := by
  constructor
  · rintro ⟨e2, he2, hp⟩
    rcases List.mem_cons.mp he2 with rfl | hm
    · exact Or.inl hp
    · exact Or.inr ⟨e2, hm, hp⟩
  · rintro (hp | ⟨e2, hm, hp⟩)
    · exact ⟨e, List.mem_cons_self _ _, hp⟩
    · exact ⟨e2, List.mem_cons_of_mem _ hm, hp⟩

theorem ownerCovers_cleanup (t : ByteRangeLockTable) (fh : FileHandle)
    (ow : LockOwnerKey) (x : Nat) :
    ownerCovers (cleanup_empty t) fh ow x ↔ ownerCovers t fh ow x := by
  constructor
  · rintro ⟨e, he, hp⟩
    exact ⟨e, (List.mem_filter.mp he).1, hp⟩
  · rintro ⟨e, he, hfh, how, r, hr, hcov⟩
    have hne : e.ranges ≠ [] := by
      intro hc
      rw [hc] at hr
      exact List.not_mem_nil r hr
    refine ⟨e, List.mem_filter.mpr ⟨he, ?_⟩, hfh, how, r, hr, hcov⟩
    simpa [List.isEmpty_iff] using hne

theorem ownerCovers_release (fh : FileHandle) (ow : LockOwnerKey) (o l : Nat)
    (hw : wfR o l) (x : Nat) :
    ∀ tbl : ByteRangeLockTable,
      (∀ e ∈ tbl, ∀ r ∈ e.ranges, wfR r.offset r.length) →
      tbl.countP (fun e => decide (e.fh = fh) && decide (e.owner = ow)) ≤ 1 →
      (ownerCovers (release tbl fh ow o l) fh ow x ↔
        (ownerCovers tbl fh ow x ∧ ¬(o ≤ x ∧ x < u64end o l)))
  | [], _, _ => by
    have : release [] fh ow o l = [] := rfl
    rw [this]
    simp [ownerCovers]
  | e :: es, hwf, hcount => by
    have hwfe : ∀ r ∈ e.ranges, wfR r.offset r.length :=
      hwf e (List.mem_cons_self _ _)
    have hwfes : ∀ e2 ∈ es, ∀ r ∈ e2.ranges, wfR r.offset r.length :=
      fun e2 he2 => hwf e2 (List.mem_cons_of_mem _ he2)
    by_cases hkeyb : (decide (e.fh = fh) && decide (e.owner = ow)) = true
    · obtain ⟨hf, how⟩ := Bool.and_eq_true _ _ |>.mp hkeyb
      rw [decide_eq_true_eq] at hf how
      have hc0 : es.countP (fun e => decide (e.fh = fh) && decide (e.owner = ow)) = 0 := by
        have hstep := List.countP_cons_of_pos
          (fun e : LockEntry => decide (e.fh = fh) && decide (e.owner = ow)) es hkeyb
        rw [hstep] at hcount
        omega
      have hnom : ∀ e2 ∈ es, ¬(e2.fh = fh ∧ e2.owner = ow) := by
        intro e2 he2 hc
        have := List.countP_eq_zero.mp hc0 e2 he2
        exact this (by simp [hc.1, hc.2])
      have hesF : ¬ownerCovers es fh ow x := by
        rintro ⟨e2, he2, hfh2, how2, -⟩
        exact hnom e2 he2 ⟨hfh2, how2⟩
      have hfind1 : find_entry (e :: es) fh ow = some e := by
        unfold find_entry
        exact List.find?_cons_of_pos es hkeyb
      have heq : release (e :: es) fh ow o l =
          cleanup_empty (remove_range e o l :: es) := by
        unfold release
        simp only [hfind1]
        unfold modifyFirst
        rw [if_pos hkeyb]
      rw [heq, ownerCovers_cleanup, ownerCovers_cons, ownerCovers_cons]
      have hremfh : (remove_range e o l).fh = e.fh := rfl
      have hremow : (remove_range e o l).owner = e.owner := rfl
      have hremranges : (remove_range e o l).ranges =
          (e.ranges.map (rangeRemnants o l (u64end o l))).flatten := rfl
      rw [hremfh, hremow, hremranges]
      rw [coversAt_remnants_flatten o l hw e.ranges hwfe x]
      constructor
      · rintro (⟨h1, h2, h3, h4⟩ | hcov)
        · exact ⟨Or.inl ⟨h1, h2, h3⟩, h4⟩
        · exact absurd hcov hesF
      · rintro ⟨(⟨h1, h2, h3⟩ | hcov), h4⟩
        · exact Or.inl ⟨h1, h2, h3, h4⟩
        · exact absurd hcov hesF
    · have hkey2 : ¬(e.fh = fh ∧ e.owner = ow) := by
        intro hc
        exact hkeyb (by simp [hc.1, hc.2])
      have heF : ¬(e.fh = fh ∧ e.owner = ow ∧
          ∃ r ∈ e.ranges, coversAt r.offset r.length x) := by
        rintro ⟨h1, h2, -⟩
        exact hkey2 ⟨h1, h2⟩
      have hcount2 : es.countP (fun e => decide (e.fh = fh) && decide (e.owner = ow)) ≤ 1 := by
        have hstep := List.countP_cons_of_neg
          (fun e : LockEntry => decide (e.fh = fh) && decide (e.owner = ow)) es hkeyb
        rw [hstep] at hcount
        exact hcount
      have hfind : find_entry (e :: es) fh ow = find_entry es fh ow := by
        unfold find_entry
        exact List.find?_cons_of_neg es hkeyb
      cases hfe : find_entry es fh ow with
      | none =>
        have hnom : ∀ e2 ∈ es, ¬(e2.fh = fh ∧ e2.owner = ow) := by
          intro e2 he2 hc
          have := List.find?_eq_none.mp hfe e2 he2
          exact this (by simp [hc.1, hc.2])
        have hesF : ¬ownerCovers es fh ow x := by
          rintro ⟨e2, he2, hfh2, how2, -⟩
          exact hnom e2 he2 ⟨hfh2, how2⟩
        have heq : release (e :: es) fh ow o l = e :: es := by
          unfold release
          simp only [hfind, hfe]
        rw [heq, ownerCovers_cons]
        constructor
        · rintro (hp | hcov)
          · exact absurd hp heF
          · exact absurd hcov hesF
        · rintro ⟨(hp | hcov), -⟩
          · exact absurd hp heF
          · exact absurd hcov hesF
      | some e2 =>
        have heq : release (e :: es) fh ow o l =
            cleanup_empty (e :: modifyFirst
              (fun a => decide (a.fh = fh) && decide (a.owner = ow))
              (fun a => remove_range a o l) es) := by
          unfold release
          simp only [hfind, hfe]
          simp only [modifyFirst]
          rw [if_neg hkeyb]
        have heqes : release es fh ow o l =
            cleanup_empty (modifyFirst
              (fun a => decide (a.fh = fh) && decide (a.owner = ow))
              (fun a => remove_range a o l) es) := by
          unfold release
          simp only [hfe]
        have IH := ownerCovers_release fh ow o l hw x es hwfes hcount2
        rw [heqes, ownerCovers_cleanup] at IH
        rw [heq, ownerCovers_cleanup, ownerCovers_cons, ownerCovers_cons, IH]
        constructor
        · rintro (hp | hcov)
          · exact absurd hp heF
          · exact ⟨Or.inr hcov.1, hcov.2⟩
        · rintro ⟨(hp | hcov), h4⟩
          · exact absurd hp heF
          · exact Or.inr ⟨hcov, h4⟩

theorem coversAt_nfs4RangeRemnants (o l : Nat) (hw : wfR o l) (r : Nfs4LockRange)
    (hr : wfR r.offset r.length) (x : Nat) :
    (∃ r2 ∈ nfs4RangeRemnants o l (u64end o l) r, coversAt r2.offset r2.length x) ↔
      (coversAt r.offset r.length x ∧ ¬(o ≤ x ∧ x < u64end o l)) := by
  obtain ⟨ho, hl⟩ := hw
  obtain ⟨hro, hrl⟩ := hr
  have hMD := U64MAX_succ
  have hwe : u64end o l ≤ U64MAX := u64end_le o l
  have hre : u64end r.offset r.length ≤ U64MAX := u64end_le r.offset r.length
  have hreL : r.offset < u64end r.offset r.length ∨ ¬coversAt r.offset r.length x := by
    by_cases hc : coversAt r.offset r.length x
    · exact Or.inl (lt_of_le_of_lt hc.1 hc.2)
    · exact Or.inr hc
  by_cases hovb : ranges_overlap o l r.offset r.length = true
  · have hov : o < u64end r.offset r.length ∧ r.offset < u64end o l := by
      simpa [ranges_overlap] using hovb
    have hwpos : 0 < u64end o l := lt_of_le_of_lt (Nat.zero_le _) hov.2
    have hrend : u64end r.offset r.length = U64MAX ∨
        (r.length ≠ U64MAX ∧ u64end r.offset r.length = r.offset + r.length) := by
      by_cases hrm : r.length = U64MAX
      · rw [hrm]; exact Or.inl (u64end_max_len _)
      · rcases hrl with h | h
        · exact absurd h hrm
        · exact Or.inr ⟨hrm, u64end_fin _ _ hrm h⟩
    simp only [nfs4RangeRemnants, if_pos hovb]
    by_cases hL : r.offset < o
    · by_cases hR : u64end r.offset r.length > u64end o l ∧ u64end o l ≠ U64MAX
      · have hLend : u64end r.offset (o - r.offset) = o :=
          u64end_left_remnant _ _ hL (by omega)
        have hRend : u64end (u64end o l)
            (if r.length = U64MAX then U64MAX else u64end r.offset r.length - u64end o l) =
            u64end r.offset r.length := by
          by_cases hrm : r.length = U64MAX
          · rw [if_pos hrm, u64end_max_len]
            rcases hrend with h | h
            · omega
            · exact absurd hrm h.1
          · rw [if_neg hrm]
            exact u64end_right_remnant _ _ hwpos hR.1 hre
        simp only [if_pos hL, if_pos hR, List.mem_append, List.mem_singleton,
          List.mem_cons, List.not_mem_nil, or_false, coversAt]
        constructor
        · rintro ⟨r2, (rfl | rfl), hcov⟩
          · rw [hLend] at hcov
            simp only at hcov
            constructor
            · exact ⟨hcov.1, by omega⟩
            · omega
          · rw [hRend] at hcov
            simp only at hcov
            constructor
            · exact ⟨by omega, hcov.2⟩
            · omega
        · rintro ⟨⟨hc1, hc2⟩, hnw⟩
          by_cases hx : x < o
          · refine ⟨_, Or.inl rfl, ?_⟩
            simp only
            rw [hLend]
            exact ⟨hc1, hx⟩
          · refine ⟨_, Or.inr rfl, ?_⟩
            simp only
            rw [hRend]
            exact ⟨by omega, hc2⟩
      · have hLend : u64end r.offset (o - r.offset) = o :=
          u64end_left_remnant _ _ hL (by omega)
        simp only [if_pos hL, if_neg hR, List.append_nil, List.mem_singleton, coversAt]
        constructor
        · rintro ⟨r2, rfl, hcov⟩
          rw [hLend] at hcov
          simp only at hcov
          exact ⟨⟨hcov.1, by omega⟩, by omega⟩
        · rintro ⟨⟨hc1, hc2⟩, hnw⟩
          refine ⟨_, rfl, ?_⟩
          simp only
          rw [hLend]
          constructor
          · exact hc1
          · rcases hrend with h | h <;> omega
    · by_cases hR : u64end r.offset r.length > u64end o l ∧ u64end o l ≠ U64MAX
      · have hRend : u64end (u64end o l)
            (if r.length = U64MAX then U64MAX else u64end r.offset r.length - u64end o l) =
            u64end r.offset r.length := by
          by_cases hrm : r.length = U64MAX
          · rw [if_pos hrm, u64end_max_len]
            rcases hrend with h | h
            · omega
            · exact absurd hrm h.1
          · rw [if_neg hrm]
            exact u64end_right_remnant _ _ hwpos hR.1 hre
        simp only [if_neg hL, if_pos hR, List.nil_append, List.mem_singleton, coversAt]
        constructor
        · rintro ⟨r2, rfl, hcov⟩
          rw [hRend] at hcov
          simp only at hcov
          exact ⟨⟨by omega, hcov.2⟩, by omega⟩
        · rintro ⟨⟨hc1, hc2⟩, hnw⟩
          refine ⟨_, rfl, ?_⟩
          simp only
          rw [hRend]
          exact ⟨by omega, hc2⟩
      · simp only [if_neg hL, if_neg hR, List.append_nil, List.not_mem_nil, coversAt]
        constructor
        · rintro ⟨r2, hmem, -⟩; exact absurd hmem (by simp)
        · rintro ⟨⟨hc1, hc2⟩, hnw⟩
          rcases hrend with h | h <;> omega
  · have hov : ¬(o < u64end r.offset r.length ∧ r.offset < u64end o l) := by
      intro hc
      exact hovb (by simpa [ranges_overlap] using hc)
    simp only [nfs4RangeRemnants, if_neg hovb, List.mem_singleton, coversAt]
    constructor
    · rintro ⟨r2, rfl, hcov⟩
      refine ⟨hcov, ?_⟩
      rcases hreL with h | h
      · omega
      · exact absurd hcov h
    · rintro ⟨hcov, -⟩
      exact ⟨r, rfl, hcov⟩

theorem coversAt_remove_lock_range (ls : Nfs4LockState) (o l : Nat) (hw : wfR o l)
    (hrs : ∀ r ∈ ls.ranges, wfR r.offset r.length) (x : Nat) :
    (∃ r2 ∈ (remove_lock_range ls o l).ranges, coversAt r2.offset r2.length x) ↔
      ((∃ r ∈ ls.ranges, coversAt r.offset r.length x) ∧ ¬(o ≤ x ∧ x < u64end o l)) := by
  have hranges : (remove_lock_range ls o l).ranges =
      (ls.ranges.map (nfs4RangeRemnants o l (u64end o l))).flatten := rfl
  rw [hranges]
  constructor
  · rintro ⟨r2, hmem, hcov⟩
    rw [List.mem_flatten] at hmem
    obtain ⟨lst, hlst, hr2⟩ := hmem
    rw [List.mem_map] at hlst
    obtain ⟨r, hr, rfl⟩ := hlst
    have hm := (coversAt_nfs4RangeRemnants o l hw r (hrs r hr) x).mp ⟨r2, hr2, hcov⟩
    exact ⟨⟨r, hr, hm.1⟩, hm.2⟩
  · rintro ⟨⟨r, hr, hcov⟩, hnw⟩
    obtain ⟨r2, hr2, hcov2⟩ :=
      (coversAt_nfs4RangeRemnants o l hw r (hrs r hr) x).mpr ⟨hcov, hnw⟩
    exact ⟨r2, List.mem_flatten.mpr ⟨_, List.mem_map_of_mem _ hr, hr2⟩, hcov2⟩

/-- C2 counterexample: releasing [0,50) from an owner that acquired [0,100)
twice (same-owner acquires never conflict and accumulate) leaves two identical
overlapping ranges [50,100), which is not the minimal set of non-overlapping
intervals for the remaining coverage. -/
theorem release_result_not_minimal :
    (release (acquire ((acquire [] [1] "o1" false 0 100).2) [1] "o1" false 0 100).2
        [1] "o1" 0 50) =
      [⟨"o1", [1], [⟨50, 50, false⟩, ⟨50, 50, false⟩]⟩] ∧
    ranges_overlap 50 50 50 50 = true := by
  constructor
  · decide
  · decide

/-- C2 amended. After `release(fh, owner, offset, length)` on the shared table
(and after `remove_lock_range` in the NFSv4 state manager) the positions the
owner still covers on that filehandle are exactly the previous coverage minus
the window [offset, offset+length) (length = U64_MAX meaning to-EOF): each
range is processed independently (kept when non-overlapping, left remnant when
it starts before the window, right remnant when it extends past a finite
window end), but the resulting list is not merged, so it need not be a minimal
set of non-overlapping intervals. Stated for non-wrapping uint64 ranges and for
tables where the (fh, owner) entry is unique, as maintained by acquire. -/
theorem release_coverage_exact :
    (∀ (tbl : ByteRangeLockTable) (fh : FileHandle) (ow : LockOwnerKey) (o l x : Nat),
      wfR o l →
      (∀ e ∈ tbl, ∀ r ∈ e.ranges, wfR r.offset r.length) →
      tbl.countP (fun e => decide (e.fh = fh) && decide (e.owner = ow)) ≤ 1 →
      (ownerCovers (release tbl fh ow o l) fh ow x ↔
        (ownerCovers tbl fh ow x ∧ ¬(o ≤ x ∧ x < u64end o l)))) ∧
    (∀ (ls : Nfs4LockState) (o l x : Nat),
      wfR o l →
      (∀ r ∈ ls.ranges, wfR r.offset r.length) →
      ((∃ r2 ∈ (remove_lock_range ls o l).ranges, coversAt r2.offset r2.length x) ↔
        ((∃ r ∈ ls.ranges, coversAt r.offset r.length x) ∧
          ¬(o ≤ x ∧ x < u64end o l)))) :=
  ⟨fun tbl fh ow o l x hw hwf hcount =>
     ownerCovers_release fh ow o l hw x tbl hwf hcount,
   fun ls o l x hw hrs => coversAt_remove_lock_range ls o l hw hrs x⟩

/-- Witness for C2 on a concrete table, window and position. -/
theorem release_coverage_exact_witness :
    (ownerCovers (release [⟨"o1", [1], [⟨0, 100, false⟩]⟩] [1] "o1" 0 50) [1] "o1" 75 ↔
      (ownerCovers [⟨"o1", [1], [⟨0, 100, false⟩]⟩] [1] "o1" 75 ∧
        ¬(0 ≤ 75 ∧ 75 < u64end 0 50))) ∧
    ((∃ r2 ∈ (remove_lock_range ⟨⟨1, []⟩, ⟨7, [2]⟩, [1], 7, [], 0,
          [⟨0, 100, READ_LT⟩]⟩ 0 50).ranges, coversAt r2.offset r2.length 75) ↔
      ((∃ r ∈ [(⟨0, 100, READ_LT⟩ : Nfs4LockRange)], coversAt r.offset r.length 75) ∧
        ¬(0 ≤ 75 ∧ 75 < u64end 0 50))) :=
  ⟨release_coverage_exact.1 _ _ _ 0 50 75 (by norm_num [wfR, U64MAX, U64MOD])
      (by norm_num [wfR, U64MAX, U64MOD]) (by decide),
   release_coverage_exact.2 _ 0 50 75 (by norm_num [wfR, U64MAX, U64MOD])
      (by norm_num [wfR, U64MAX, U64MOD])⟩

/-! ## C7: CLOSE returns LOCKS_HELD exactly when a non-empty lock-state
back-links to the open -/

/-- C7. For every CLOSE whose stateid resolves to an open and whose seqid is
the stored open_seqid plus one, the call returns NFS4ERR_LOCKS_HELD if and only
if some lock-state whose back-link matches the opens stateid.other has a
non-empty range list; otherwise it returns NFS4_OK, removes every lock-state
referencing that open, removes the open, and returns the stateid with
seqid = U32_MAX. -/
theorem close_file_locks_held_iff (now : Nat) (st : MgrState) (sid : Nfs4StateId)
    (seqid : Nat) (os : Nfs4OpenState)
    (hfind : find_open_state st sid = some os)
    (hseq : seqid = (os.open_seqid + 1) % U32MOD) :
    ((close_file now st sid seqid).status = NFS4ERR_LOCKS_HELD ↔
      ∃ ls ∈ st.lock_states, ls.open_stateid_other = os.stateid.other ∧ ls.ranges ≠ []) ∧
    ((close_file now st sid seqid).status ≠ NFS4ERR_LOCKS_HELD →
      (close_file now st sid seqid).status = NFS4_OK ∧
      (close_file now st sid seqid).stateid = some { os.stateid with seqid := U32MAX } ∧
      (close_file now st sid seqid).st.lock_states =
        st.lock_states.filter
          (fun ls => !decide (ls.open_stateid_other = os.stateid.other)) ∧
      (close_file now st sid seqid).st.open_states =
        eraseFirst (fun o => decide (o.stateid.other = sid.other)) st.open_states) := by
  by_cases hany : st.lock_states.any (fun ls =>
      decide (ls.open_stateid_other = os.stateid.other) && !ls.ranges.isEmpty) = true
  · have heq : close_file now st sid seqid = ⟨NFS4ERR_LOCKS_HELD, st, none⟩ := by
      unfold close_file
      simp only [hfind]
      rw [if_neg (by simp [hseq]), if_pos hany]
    rw [heq]
    refine ⟨?_, ?_⟩
    · constructor
      · intro _
        obtain ⟨ls, hmem, hp⟩ := List.any_eq_true.mp hany
        obtain ⟨h1, h2⟩ := Bool.and_eq_true _ _ |>.mp hp
        rw [decide_eq_true_eq] at h1
        refine ⟨ls, hmem, h1, ?_⟩
        intro hc
        rw [hc] at h2
        simp at h2
      · intro _
        rfl
    · intro hne
      exact absurd rfl hne
  · have hnex : ¬∃ ls ∈ st.lock_states,
        ls.open_stateid_other = os.stateid.other ∧ ls.ranges ≠ [] := by
      rintro ⟨ls, hmem, h1, h2⟩
      refine hany (List.any_eq_true.mpr ⟨ls, hmem, ?_⟩)
      rw [Bool.and_eq_true]
      refine ⟨by simp [h1], ?_⟩
      cases hLr : ls.ranges with
      | nil => exact absurd hLr h2
      | cons a as => simp [hLr]
    have heq : close_file now st sid seqid =
        ⟨NFS4_OK,
         { st with
            lock_states := st.lock_states.filter
              (fun ls => !decide (ls.open_stateid_other = os.stateid.other)),
            clients := renewClient now os.clientid st.clients,
            open_states := eraseFirst (fun o => decide (o.stateid.other = sid.other))
              st.open_states },
         some { os.stateid with seqid := U32MAX }⟩ := by
      unfold close_file
      simp only [hfind]
      rw [if_neg (by simp [hseq]), if_neg hany]
    rw [heq]
    refine ⟨?_, fun _ => ⟨rfl, rfl, rfl, rfl⟩⟩
    constructor
    · intro h0
      simp [NFS4_OK, NFS4ERR_LOCKS_HELD] at h0
    · intro hex
      exact absurd hex hnex

/-- Witness for C7: closing the fixture open with the correct seqid and no
lock-states. -/
theorem close_file_locks_held_iff_witness :
    ((close_file 0 exMgr ⟨1, exOther⟩ 2).status = NFS4ERR_LOCKS_HELD ↔
      ∃ ls ∈ exMgr.lock_states,
        ls.open_stateid_other = exOpen.stateid.other ∧ ls.ranges ≠ []) ∧
    ((close_file 0 exMgr ⟨1, exOther⟩ 2).status ≠ NFS4ERR_LOCKS_HELD →
      (close_file 0 exMgr ⟨1, exOther⟩ 2).status = NFS4_OK ∧
      (close_file 0 exMgr ⟨1, exOther⟩ 2).stateid =
        some { exOpen.stateid with seqid := U32MAX } ∧
      (close_file 0 exMgr ⟨1, exOther⟩ 2).st.lock_states =
        exMgr.lock_states.filter
          (fun ls => !decide (ls.open_stateid_other = exOpen.stateid.other)) ∧
      (close_file 0 exMgr ⟨1, exOther⟩ 2).st.open_states =
        eraseFirst (fun o => decide (o.stateid.other = exOther)) exMgr.open_states) :=
  close_file_locks_held_iff 0 exMgr ⟨1, exOther⟩ 2 exOpen (by decide) (by decide)

/-! ## C3: owner sequence-id discipline -/

/-- C3 counterexample. The lock_seqid exception is wider than a zero accepted
only for the very first lock_seqid of a new lock owner: starting from the
fixture manager, a LOCK with new owner (lock_seqid 0), then a LOCK on the
existing stateid (lock_seqid 1, storing 1), then another LOCK through the
new-owner path with lock_seqid 0 succeeds with NFS4_OK although the stored
value is 1 (so stored+1 = 2 and this is not the first lock_seqid); moreover
the very first lock_seqid of a new lock owner is accepted with any value (here
5), not only zero. -/
theorem lock_seqid_zero_accepted_after_first :
    ((lock_existing 0 (lock_new 0 exMgr 7 ⟨1, exOther⟩ 2 ⟨7, [2]⟩ 0 [1] WRITE_LT
        0 100).st ⟨1, gen_stateid_other 1⟩ 1 WRITE_LT 200 100).st.lock_states.map
          Nfs4LockState.lock_seqid = [1]) ∧
    (lock_new 0 (lock_existing 0 (lock_new 0 exMgr 7 ⟨1, exOther⟩ 2 ⟨7, [2]⟩ 0 [1]
        WRITE_LT 0 100).st ⟨1, gen_stateid_other 1⟩ 1 WRITE_LT 200 100).st
        7 ⟨1, exOther⟩ 3 ⟨7, [2]⟩ 0 [1] WRITE_LT 400 100).status = NFS4_OK ∧
    (lock_new 0 exMgr 7 ⟨1, exOther⟩ 2 ⟨7, [2]⟩ 5 [1] WRITE_LT 0 100).status =
      NFS4_OK := by
  refine ⟨?_, ?_, ?_⟩ <;> decide

/-- C3 amended. Every owner seqid gate compares against the stored value plus
one (uint32): OPEN on an existing open, OPEN_CONFIRM, OPEN_DOWNGRADE, CLOSE and
the open_seqid of LOCK-with-new-owner reject any other value with
NFS4ERR_BAD_SEQID, and so do the lock_seqid of LOCK-with-existing-stateid and
LOCKU; but under LOCK with a new lock owner, when no lock state exists yet for
that (owner, filehandle) the supplied lock_seqid is stored without any
validation, and when one already exists a zero lock_seqid is accepted at any
time in addition to stored+1. -/
theorem seqid_discipline :
    (∀ (now : Nat) (st : MgrState) (clientid : Nat) (owner : List Nat) (seqid : Nat)
       (fh : FileHandle) (access deny : Nat) (cl : Nfs4Client) (os : Nfs4OpenState),
      lookupClient st.clients clientid = some cl →
      cl.confirmed = true →
      st.deleg_states.find? (delegConflict clientid fh access) = none →
      st.open_states.find? (fun o => decide (o.clientid = clientid) &&
        decide (o.owner = owner) && decide (o.fh = fh)) = some os →
      ((open_file now st clientid owner seqid fh access deny).status =
          NFS4ERR_BAD_SEQID ↔ seqid ≠ (os.open_seqid + 1) % U32MOD)) ∧
    (∀ (now : Nat) (st : MgrState) (sid : Nfs4StateId) (seqid : Nat)
       (os : Nfs4OpenState),
      find_open_state st sid = some os →
      ((confirm_open now st sid seqid).status = NFS4ERR_BAD_SEQID ↔
        seqid ≠ (os.open_seqid + 1) % U32MOD)) ∧
    (∀ (now : Nat) (st : MgrState) (sid : Nfs4StateId) (seqid access deny : Nat)
       (os : Nfs4OpenState),
      find_open_state st sid = some os →
      ((open_downgrade now st sid seqid access deny).status = NFS4ERR_BAD_SEQID ↔
        seqid ≠ (os.open_seqid + 1) % U32MOD)) ∧
    (∀ (now : Nat) (st : MgrState) (sid : Nfs4StateId) (seqid : Nat)
       (os : Nfs4OpenState),
      find_open_state st sid = some os →
      ((close_file now st sid seqid).status = NFS4ERR_BAD_SEQID ↔
        seqid ≠ (os.open_seqid + 1) % U32MOD)) ∧
    (∀ (now : Nat) (st : MgrState) (clientid : Nat) (open_stateid : Nfs4StateId)
       (open_seqid : Nat) (lock_owner : Nfs4LockOwner) (lock_seqid : Nat)
       (fh : FileHandle) (locktype offset length : Nat) (os : Nfs4OpenState),
      find_open_state st open_stateid = some os →
      ((open_seqid ≠ (os.open_seqid + 1) % U32MOD →
          (lock_new now st clientid open_stateid open_seqid lock_owner lock_seqid fh
            locktype offset length).status = NFS4ERR_BAD_SEQID) ∧
       (open_seqid = (os.open_seqid + 1) % U32MOD →
        check_lock_conflict st.lock_states fh lock_owner locktype offset length = none →
        ((find_lock_state_by_owner st lock_owner fh = none →
            (lock_new now st clientid open_stateid open_seqid lock_owner lock_seqid fh
              locktype offset length).status = NFS4_OK) ∧
         (∀ ls, find_lock_state_by_owner st lock_owner fh = some ls →
            ((lock_new now st clientid open_stateid open_seqid lock_owner lock_seqid fh
                locktype offset length).status = NFS4ERR_BAD_SEQID ↔
              (lock_seqid ≠ (ls.lock_seqid + 1) % U32MOD ∧ lock_seqid ≠ 0))))))) ∧
    (∀ (now : Nat) (st : MgrState) (lock_stateid : Nfs4StateId)
       (lock_seqid locktype offset length : Nat) (ls : Nfs4LockState),
      find_lock_state st lock_stateid = some ls →
      ((lock_existing now st lock_stateid lock_seqid locktype offset length).status =
          NFS4ERR_BAD_SEQID ↔ lock_seqid ≠ (ls.lock_seqid + 1) % U32MOD)) ∧
    (∀ (now : Nat) (st : MgrState) (lock_stateid : Nfs4StateId)
       (seqid offset length : Nat) (ls : Nfs4LockState),
      find_lock_state st lock_stateid = some ls →
      ((lock_unlock now st lock_stateid seqid offset length).status =
          NFS4ERR_BAD_SEQID ↔ seqid ≠ (ls.lock_seqid + 1) % U32MOD)) := by
  refine ⟨?_, ?_, ?_, ?_, ?_, ?_, ?_⟩
  · intro now st clientid owner seqid fh access deny cl os hcl hconf hdeleg hopen
    unfold open_file
    simp only [hcl, hconf, Bool.not_true, Bool.false_eq_true, if_false, hdeleg, hopen]
    by_cases hs : seqid ≠ (os.open_seqid + 1) % U32MOD
    · rw [if_pos hs]
      exact ⟨fun _ => hs, fun _ => rfl⟩
    · rw [if_neg hs]
      exact ⟨fun h0 => by simp [NFS4_OK, NFS4ERR_BAD_SEQID] at h0,
             fun h2 => absurd h2 hs⟩
  · intro now st sid seqid os hfind
    unfold confirm_open
    simp only [hfind]
    by_cases hs : seqid ≠ (os.open_seqid + 1) % U32MOD
    · rw [if_pos hs]
      exact ⟨fun _ => hs, fun _ => rfl⟩
    · rw [if_neg hs]
      exact ⟨fun h0 => by simp [NFS4_OK, NFS4ERR_BAD_SEQID] at h0,
             fun h2 => absurd h2 hs⟩
  · intro now st sid seqid access deny os hfind
    unfold open_downgrade
    simp only [hfind]
    by_cases hs : seqid ≠ (os.open_seqid + 1) % U32MOD
    · rw [if_pos hs]
      exact ⟨fun _ => hs, fun _ => rfl⟩
    · rw [if_neg hs]
      by_cases hacc : access &&& os.access ≠ access
      · rw [if_pos hacc]
        exact ⟨fun h0 => by simp [NFS4ERR_INVAL, NFS4ERR_BAD_SEQID] at h0,
               fun h2 => absurd h2 hs⟩
      · rw [if_neg hacc]
        exact ⟨fun h0 => by simp [NFS4_OK, NFS4ERR_BAD_SEQID] at h0,
               fun h2 => absurd h2 hs⟩
  · intro now st sid seqid os hfind
    unfold close_file
    simp only [hfind]
    by_cases hs : seqid ≠ (os.open_seqid + 1) % U32MOD
    · rw [if_pos hs]
      exact ⟨fun _ => hs, fun _ => rfl⟩
    · rw [if_neg hs]
      by_cases hany : st.lock_states.any (fun ls =>
          decide (ls.open_stateid_other = os.stateid.other) && !ls.ranges.isEmpty) = true
      · rw [if_pos hany]
        exact ⟨fun h0 => by simp [NFS4ERR_LOCKS_HELD, NFS4ERR_BAD_SEQID] at h0,
               fun h2 => absurd h2 hs⟩
      · rw [if_neg hany]
        exact ⟨fun h0 => by simp [NFS4_OK, NFS4ERR_BAD_SEQID] at h0,
               fun h2 => absurd h2 hs⟩
  · intro now st clientid open_stateid open_seqid lock_owner lock_seqid fh locktype
      offset length os hfo
    unfold lock_new
    simp only [hfo]
    constructor
    · intro hbad
      rw [if_pos hbad]
    · intro hok hconfl
      rw [if_neg (by simp [hok])]
      simp only [hconfl]
      constructor
      · intro hnols
        simp only [find_lock_state_by_owner] at hnols
        simp only [find_lock_state_by_owner, hnols]
      · intro ls hls
        simp only [find_lock_state_by_owner] at hls
        simp only [find_lock_state_by_owner, hls]
        by_cases hlsq : lock_seqid ≠ (ls.lock_seqid + 1) % U32MOD ∧ lock_seqid ≠ 0
        · rw [if_pos hlsq]
          exact ⟨fun _ => hlsq, fun _ => rfl⟩
        · rw [if_neg hlsq]
          exact ⟨fun h0 => by simp [NFS4_OK, NFS4ERR_BAD_SEQID] at h0,
                 fun h2 => absurd h2 hlsq⟩
  · intro now st lock_stateid lock_seqid locktype offset length ls hls
    unfold lock_existing
    simp only [hls]
    by_cases hs : lock_seqid ≠ (ls.lock_seqid + 1) % U32MOD
    · rw [if_pos hs]
      exact ⟨fun _ => hs, fun _ => rfl⟩
    · rw [if_neg hs]
      cases hc : check_lock_conflict st.lock_states ls.fh ls.lock_owner locktype
          offset length with
      | some d =>
        simp only [hc]
        exact ⟨fun h0 => by simp [NFS4ERR_DENIED, NFS4ERR_BAD_SEQID] at h0,
               fun h2 => absurd h2 hs⟩
      | none =>
        simp only [hc]
        exact ⟨fun h0 => by simp [NFS4_OK, NFS4ERR_BAD_SEQID] at h0,
               fun h2 => absurd h2 hs⟩
  · intro now st lock_stateid seqid offset length ls hls
    unfold lock_unlock
    simp only [hls]
    by_cases hs : seqid ≠ (ls.lock_seqid + 1) % U32MOD
    · rw [if_pos hs]
      exact ⟨fun _ => hs, fun _ => rfl⟩
    · rw [if_neg hs]
      exact ⟨fun h0 => by simp [NFS4_OK, NFS4ERR_BAD_SEQID] at h0,
             fun h2 => absurd h2 hs⟩

/-- Witness for C3 applying every gate at a concrete manager state. -/
theorem seqid_discipline_witness :
    ((open_file 0 exMgr 7 [1] 5 [1] 3 0).status = NFS4ERR_BAD_SEQID ↔
      5 ≠ (exOpen.open_seqid + 1) % U32MOD) ∧
    ((confirm_open 0 exMgr ⟨1, exOther⟩ 2).status = NFS4ERR_BAD_SEQID ↔
      2 ≠ (exOpen.open_seqid + 1) % U32MOD) ∧
    ((open_downgrade 0 exMgr ⟨1, exOther⟩ 2 1 0).status = NFS4ERR_BAD_SEQID ↔
      2 ≠ (exOpen.open_seqid + 1) % U32MOD) ∧
    ((close_file 0 exMgr ⟨1, exOther⟩ 9).status = NFS4ERR_BAD_SEQID ↔
      9 ≠ (exOpen.open_seqid + 1) % U32MOD) ∧
    ((lock_new 0 exMgr 7 ⟨1, exOther⟩ 2 ⟨7, [2]⟩ 5 [1] WRITE_LT 0 100).status =
      NFS4_OK) ∧
    ((lock_existing 0 exMgrL ⟨1, gen_stateid_other 1⟩ 5 WRITE_LT 200 100).status =
        NFS4ERR_BAD_SEQID ↔ 5 ≠ (exLock.lock_seqid + 1) % U32MOD) ∧
    ((lock_unlock 0 exMgrL ⟨1, gen_stateid_other 1⟩ 5 0 100).status =
        NFS4ERR_BAD_SEQID ↔ 5 ≠ (exLock.lock_seqid + 1) % U32MOD) := by
  refine ⟨?_, ?_, ?_, ?_, ?_, ?_, ?_⟩
  · exact seqid_discipline.1 0 exMgr 7 [1] 5 [1] 3 0 exClient exOpen (by decide)
      (by decide) (by decide) (by decide)
  · exact seqid_discipline.2.1 0 exMgr ⟨1, exOther⟩ 2 exOpen (by decide)
  · exact seqid_discipline.2.2.1 0 exMgr ⟨1, exOther⟩ 2 1 0 exOpen (by decide)
  · exact seqid_discipline.2.2.2.1 0 exMgr ⟨1, exOther⟩ 9 exOpen (by decide)
  · exact ((seqid_discipline.2.2.2.2.1 0 exMgr 7 ⟨1, exOther⟩ 2 ⟨7, [2]⟩ 5 [1]
      WRITE_LT 0 100 exOpen (by decide)).2 (by decide) (by decide)).1 (by decide)
  · exact seqid_discipline.2.2.2.2.2.1 0 exMgrL ⟨1, gen_stateid_other 1⟩ 5 WRITE_LT
      200 100 exLock (by decide)
  · exact seqid_discipline.2.2.2.2.2.2 0 exMgrL ⟨1, gen_stateid_other 1⟩ 5 0 100
      exLock (by decide)

/-! ## C6: client expiry removes every reference -/

theorem assoc_unique :
    ∀ (l : List (Nat × Nfs4Client)) (k : Nat) (a b : Nfs4Client),
      (l.map Prod.fst).Nodup → (k, a) ∈ l → (k, b) ∈ l → a = b
  | [], _, _, _, _, hma, _ => absurd hma (List.not_mem_nil _)
  | (k0, v0) :: rest, k, a, b, hnodup, hma, hmb => by
    rw [List.map_cons, List.nodup_cons] at hnodup
    rcases List.mem_cons.mp hma with ha | ha
    · rcases List.mem_cons.mp hmb with hb | hb
      · injection ha with ha1 ha2
        injection hb with hb1 hb2
        rw [ha2, hb2]
      · injection ha with ha1 ha2
        subst ha1
        exact absurd (List.mem_map_of_mem Prod.fst hb) hnodup.1
    · rcases List.mem_cons.mp hmb with hb | hb
      · injection hb with hb1 hb2
        subst hb1
        exact absurd (List.mem_map_of_mem Prod.fst ha) hnodup.1
      · exact assoc_unique rest k a b hnodup.2 ha hb

theorem expireOne_subsets (st : MgrState) (a : Nat) :
    (∀ x ∈ (expireOne st a).deleg_states, x ∈ st.deleg_states) ∧
    (∀ x ∈ (expireOne st a).lock_states, x ∈ st.lock_states) ∧
    (∀ x ∈ (expireOne st a).open_states, x ∈ st.open_states) ∧
    (∀ x ∈ (expireOne st a).clients, x ∈ st.clients) ∧
    (∀ x ∈ (expireOne st a).client_id_to_clientid, x ∈ st.client_id_to_clientid) :=
  ⟨fun _ hx => List.mem_of_mem_filter hx,
   fun _ hx => List.mem_of_mem_filter hx,
   fun _ hx => List.mem_of_mem_filter hx,
   fun _ hx => List.mem_of_mem_filter hx,
   fun _ hx => List.mem_of_mem_filter hx⟩

theorem foldl_expireOne_subsets :
    ∀ (l : List Nat) (st : MgrState),
      (∀ x ∈ (l.foldl expireOne st).deleg_states, x ∈ st.deleg_states) ∧
      (∀ x ∈ (l.foldl expireOne st).lock_states, x ∈ st.lock_states) ∧
      (∀ x ∈ (l.foldl expireOne st).open_states, x ∈ st.open_states) ∧
      (∀ x ∈ (l.foldl expireOne st).clients, x ∈ st.clients) ∧
      (∀ x ∈ (l.foldl expireOne st).client_id_to_clientid,
        x ∈ st.client_id_to_clientid)
  | [], st => ⟨fun _ hx => hx, fun _ hx => hx, fun _ hx => hx, fun _ hx => hx,
      fun _ hx => hx⟩
  | a :: rest, st => by
    have IH := foldl_expireOne_subsets rest (expireOne st a)
    have S := expireOne_subsets st a
    exact ⟨fun x hx => S.1 x (IH.1 x hx),
           fun x hx => S.2.1 x (IH.2.1 x hx),
           fun x hx => S.2.2.1 x (IH.2.2.1 x hx),
           fun x hx => S.2.2.2.1 x (IH.2.2.2.1 x hx),
           fun x hx => S.2.2.2.2 x (IH.2.2.2.2 x hx)⟩

theorem expireOne_clean (st : MgrState) (cid : Nat) (c : Nfs4Client)
    (hmem : (cid, c) ∈ st.clients)
    (hnodup : (st.clients.map Prod.fst).Nodup)
    (hidx : ∀ kv ∈ st.client_id_to_clientid,
      ∃ p ∈ st.clients, p.1 = kv.2 ∧ p.2.client_id = kv.1) :
    (∀ x ∈ (expireOne st cid).deleg_states, x.clientid ≠ cid) ∧
    (∀ x ∈ (expireOne st cid).lock_states, x.clientid ≠ cid) ∧
    (∀ x ∈ (expireOne st cid).open_states, x.clientid ≠ cid) ∧
    (∀ p ∈ (expireOne st cid).clients, p.1 ≠ cid) ∧
    (∀ kv ∈ (expireOne st cid).client_id_to_clientid, kv.2 ≠ cid) := by
  refine ⟨?_, ?_, ?_, ?_, ?_⟩
  · intro x hx
    have hx2 : x ∈ st.deleg_states.filter (fun ds => decide (ds.clientid ≠ cid)) := hx
    simpa using List.of_mem_filter hx2
  · intro x hx
    have hx2 : x ∈ st.lock_states.filter (fun ls => decide (ls.clientid ≠ cid)) := hx
    simpa using List.of_mem_filter hx2
  · intro x hx
    have hx2 : x ∈ st.open_states.filter (fun os => decide (os.clientid ≠ cid)) := hx
    simpa using List.of_mem_filter hx2
  · intro p hp
    have hp2 : p ∈ st.clients.filter (fun kv => !decide (kv.1 = cid)) := hp
    simpa using List.of_mem_filter hp2
  · intro kv hkv
    intro hv
    have hmemkv : kv ∈ st.client_id_to_clientid :=
      (expireOne_subsets st cid).2.2.2.2 kv hkv
    obtain ⟨p, hpmem, hp1, hp2⟩ := hidx kv hmemkv
    rw [hv] at hp1
    have hpc : p = (cid, p.2) := by
      rw [← hp1]
    have hceq : p.2 = c := by
      refine assoc_unique st.clients cid p.2 c hnodup ?_ hmem
      rw [← hpc]
      exact hpmem
    have hlook : lookupClient st.clients cid = some c := by
      unfold lookupClient
      cases hfind : st.clients.find? (fun kv => decide (kv.1 = cid)) with
      | none =>
        have := List.find?_eq_none.mp hfind (cid, c) hmem
        simp at this
      | some kv0 =>
        have hkv0mem := List.mem_of_find?_eq_some hfind
        have hkv0p := List.find?_some hfind
        rw [decide_eq_true_eq] at hkv0p
        have : kv0 = (cid, kv0.2) := by rw [← hkv0p]
        have hsnd : kv0.2 = c := by
          refine assoc_unique st.clients cid kv0.2 c hnodup ?_ hmem
          rw [← this]
          exact hkv0mem
        simp [hsnd]
    have hkey : kv.1 = c.client_id := by
      rw [← hp2, hceq]
    have hfl : kv ∈ st.client_id_to_clientid.filter
        (fun kv2 => !decide (kv2.1 =
          (((lookupClient st.clients cid).map Nfs4Client.client_id).getD []))) := hkv
    have h := List.of_mem_filter hfl
    rw [hlook] at h
    simp [hkey] at h

theorem expireOne_preserves (st : MgrState) (a cid : Nat) (c : Nfs4Client)
    (hne : a ≠ cid)
    (hmem : (cid, c) ∈ st.clients)
    (hnodup : (st.clients.map Prod.fst).Nodup)
    (hidx : ∀ kv ∈ st.client_id_to_clientid,
      ∃ p ∈ st.clients, p.1 = kv.2 ∧ p.2.client_id = kv.1) :
    (cid, c) ∈ (expireOne st a).clients ∧
    (((expireOne st a).clients.map Prod.fst).Nodup) ∧
    (∀ kv ∈ (expireOne st a).client_id_to_clientid,
      ∃ p ∈ (expireOne st a).clients, p.1 = kv.2 ∧ p.2.client_id = kv.1) := by
  have hclients : (expireOne st a).clients =
      st.clients.filter (fun kv => !decide (kv.1 = a)) := rfl
  refine ⟨?_, ?_, ?_⟩
  · rw [hclients]
    refine List.mem_filter.mpr ⟨hmem, ?_⟩
    simp
    exact fun h => hne h.symm
  · rw [hclients]
    exact List.Nodup.sublist (List.Sublist.map Prod.fst (List.filter_sublist _)) hnodup
  · intro kv hkv
    have hmemkv : kv ∈ st.client_id_to_clientid :=
      (expireOne_subsets st a).2.2.2.2 kv hkv
    obtain ⟨p, hpmem, hp1, hp2⟩ := hidx kv hmemkv
    have hpa : p.1 ≠ a := by
      intro hpeq
      -- then kv references client a, whose index key was erased
      cases hfind : st.clients.find? (fun kv2 => decide (kv2.1 = a)) with
      | none =>
        have := List.find?_eq_none.mp hfind p hpmem
        simp [hpeq] at this
      | some kv0 =>
        have hkv0mem := List.mem_of_find?_eq_some hfind
        have hkv0p := List.find?_some hfind
        rw [decide_eq_true_eq] at hkv0p
        have hkv02 : kv0 = (a, kv0.2) := by rw [← hkv0p]
        have hpform : p = (a, p.2) := by rw [← hpeq]
        have hsnd : p.2 = kv0.2 := by
          refine assoc_unique st.clients a p.2 kv0.2 hnodup ?_ ?_
          · rw [← hpform]; exact hpmem
          · rw [← hkv02]; exact hkv0mem
        have hlook : lookupClient st.clients a = some kv0.2 := by
          unfold lookupClient
          rw [hfind]
          rfl
        have hfl : kv ∈ st.client_id_to_clientid.filter
            (fun kv2 => !decide (kv2.1 =
              (((lookupClient st.clients a).map Nfs4Client.client_id).getD []))) := hkv
        have h := List.of_mem_filter hfl
        rw [hlook] at h
        have hkey : kv.1 = kv0.2.client_id := by
          rw [← hp2, hsnd]
        simp [hkey] at h
    refine ⟨p, ?_, hp1, hp2⟩
    rw [hclients]
    refine List.mem_filter.mpr ⟨hpmem, ?_⟩
    simp [hpa]

theorem foldl_expireOne_clean :
    ∀ (l : List Nat) (st : MgrState) (cid : Nat) (c : Nfs4Client),
      cid ∈ l → (cid, c) ∈ st.clients →
      (st.clients.map Prod.fst).Nodup →
      (∀ kv ∈ st.client_id_to_clientid,
        ∃ p ∈ st.clients, p.1 = kv.2 ∧ p.2.client_id = kv.1) →
      (∀ x ∈ (l.foldl expireOne st).deleg_states, x.clientid ≠ cid) ∧
      (∀ x ∈ (l.foldl expireOne st).lock_states, x.clientid ≠ cid) ∧
      (∀ x ∈ (l.foldl expireOne st).open_states, x.clientid ≠ cid) ∧
      (∀ p ∈ (l.foldl expireOne st).clients, p.1 ≠ cid) ∧
      (∀ kv ∈ (l.foldl expireOne st).client_id_to_clientid, kv.2 ≠ cid)
  | [], _, _, _, hin, _, _, _ => absurd hin (List.not_mem_nil _)
  | a :: rest, st, cid, c, hin, hmem, hnodup, hidx => by
    by_cases ha : a = cid
    · subst ha
      have hc := expireOne_clean st a c hmem hnodup hidx
      have hs := foldl_expireOne_subsets rest (expireOne st a)
      exact ⟨fun x hx => hc.1 x (hs.1 x hx),
             fun x hx => hc.2.1 x (hs.2.1 x hx),
             fun x hx => hc.2.2.1 x (hs.2.2.1 x hx),
             fun x hx => hc.2.2.2.1 x (hs.2.2.2.1 x hx),
             fun x hx => hc.2.2.2.2 x (hs.2.2.2.2 x hx)⟩
    · have hp := expireOne_preserves st a cid c ha hmem hnodup hidx
      have hin2 : cid ∈ rest := by
        rcases List.mem_cons.mp hin with h | h
        · exact absurd h.symm ha
        · exact h
      exact foldl_expireOne_clean rest (expireOne st a) cid c hin2 hp.1 hp.2.1 hp.2.2

/-- C6. For every client expired by the reaper pass (confirmed, with
`now - last_renewed` beyond the lease), after `expire_clients` completes no
delegation state, lock state, open state, client record, or
client_id-to-clientid index entry referencing that client remains. The pass is
a single atomic transition of the manager state (the C++ holds the manager
mutex for its whole duration). Stated for manager states with unique clientid
keys and an index consistent with the client table, as the manager maintains. -/
theorem expire_clients_removes_all (now : Nat) (st : MgrState) (cid : Nat)
    (c : Nfs4Client)
    (hmem : (cid, c) ∈ st.clients)
    (hexp : clientExpired now c = true)
    (hnodup : (st.clients.map Prod.fst).Nodup)
    (hidx : ∀ kv ∈ st.client_id_to_clientid,
      ∃ p ∈ st.clients, p.1 = kv.2 ∧ p.2.client_id = kv.1) :
    (∀ x ∈ (expire_clients now st).deleg_states, x.clientid ≠ cid) ∧
    (∀ x ∈ (expire_clients now st).lock_states, x.clientid ≠ cid) ∧
    (∀ x ∈ (expire_clients now st).open_states, x.clientid ≠ cid) ∧
    (∀ p ∈ (expire_clients now st).clients, p.1 ≠ cid) ∧
    (∀ kv ∈ (expire_clients now st).client_id_to_clientid, kv.2 ≠ cid) := by
  have hin : cid ∈ (st.clients.filter (fun kv => clientExpired now kv.2)).map Prod.fst :=
    List.mem_map_of_mem Prod.fst (List.mem_filter.mpr ⟨hmem, hexp⟩)
  exact foldl_expireOne_clean _ st cid c hin hmem hnodup hidx

/-- Witness for C6: the fixture client with a stale lease is fully erased. -/
theorem expire_clients_removes_all_witness :
    (∀ x ∈ (expire_clients 100 exMgrL).deleg_states, x.clientid ≠ 7) ∧
    (∀ x ∈ (expire_clients 100 exMgrL).lock_states, x.clientid ≠ 7) ∧
    (∀ x ∈ (expire_clients 100 exMgrL).open_states, x.clientid ≠ 7) ∧
    (∀ p ∈ (expire_clients 100 exMgrL).clients, p.1 ≠ 7) ∧
    (∀ kv ∈ (expire_clients 100 exMgrL).client_id_to_clientid, kv.2 ≠ 7) :=
  expire_clients_removes_all 100 exMgrL 7 exClient (by decide) (by decide) (by decide)
    (by decide)

end NfsServer
